import Mathlib

/-!
Verification of the egs-mesh repository (a Gmsh `.msh` 4.1 parser and a
tetrahedral face-neighbour builder) against its natural-language
specification.

The development shallowly embeds the C++ sources:
* `src/neighbour.h` — namespace `mesh_neighbours`: the `Tetrahedron` value
  class, the CSR elements-around-points index and the flag-based
  `tetrahedron_neighbours` builder;
* `src/tests/egs-mesh-tests.cpp` — the naive O(N²) reference
  `naive_neighbours`;
* `src/msh_parser.h` — the msh 4.1 parser (`parse_msh_version`,
  the section parsers and `parse_body` / `parse_msh_file`).

C++ `int` is modelled as `Int` (the node tags and element counts involved
are tiny, far from any overflow); `std::vector<int>` as `List Int`.
`vector::at` (which throws `std::out_of_range`) is modelled as a fallible
access in the `Except String` monad; `operator[]` (undefined behaviour when
out of range) is modelled as a total read with default `0` / a no-op write,
which is only relied upon in-bounds.  Exceptions are modelled by
`Except String` carrying the thrown message.
-/

namespace mesh_neighbours

/-- `constexpr int NONE = -1;` — magic number for "no neighbour". -/
def NONE : Int := -1

/-- The four node tags of a `mesh_neighbours::Tetrahedron`
(private members `_a _b _c _d`, default-initialised to `-1`). -/
structure Tetrahedron where
  a : Int := -1
  b : Int := -1
  c : Int := -1
  d : Int := -1
deriving Repr, DecidableEq, Inhabited

/-- The `Tetrahedron(int a, int b, int c, int d)` constructor
(src/neighbour.h lines 26-46): throws `std::invalid_argument` for a
negative tag or a duplicate tag, otherwise sorts the four tags ascending
(`std::sort`, modelled by `List.insertionSort`) and stores them. -/
def Tetrahedron.make (a b c d : Int) : Except String Tetrahedron :=
  if a < 0 then .error ("negative node " ++ toString a)
  else if b < 0 then .error ("negative node " ++ toString b)
  else if c < 0 then .error ("negative node " ++ toString c)
  else if d < 0 then .error ("negative node " ++ toString d)
  else if a = b ∨ a = c ∨ a = d then .error ("duplicate node " ++ toString a)
  else if b = c ∨ b = d then .error ("duplicate node " ++ toString b)
  else if c = d then .error ("duplicate node " ++ toString c)
  else
    let sorted := List.insertionSort (· ≤ ·) [a, b, c, d]
    .ok { a := sorted.getD 0 0, b := sorted.getD 1 0,
          c := sorted.getD 2 0, d := sorted.getD 3 0 }

/-- `faces()` (src/neighbour.h lines 47-54): the four faces, each an
ordered triple, in the order omit-`_a`, omit-`_b`, omit-`_c`, omit-`_d`. -/
def Tetrahedron.faces (t : Tetrahedron) : List (List Int) :=
  [ [t.b, t.c, t.d], [t.a, t.c, t.d], [t.a, t.b, t.d], [t.a, t.b, t.c] ]

/-- `nodes()` (src/unnamed/part_002 lines 48-50): the four stored tags. -/
def Tetrahedron.nodes (t : Tetrahedron) : List Int :=
  [t.a, t.b, t.c, t.d]

/-- `flatten_tetrahedron_vector` (src/neighbour.h lines 65-75):
the concatenated node tags of all elements, four per element. -/
def flatten_tetrahedron_vector (elements : List Tetrahedron) : List Int :=
  elements.flatMap (fun e => [e.a, e.b, e.c, e.d])

/-- The naive O(N²) reference `naive_neighbours`
(src/tests/egs-mesh-tests.cpp lines 6-30): for every element `i` and face
`f` whose slot is still `NONE`, scan all other elements `j` in index
order; at the first face `fj` of `j` equal to `elt_faces[f]` write
`nbrs[4*i+f] = j` and `nbrs[4*j+fj] = i` and break out of the `fj` loop
(the `j` loop continues). -/
def naive_step (elements : List Tetrahedron) (i f : Nat) (face : List Int)
    (nbrs : List Int) (j : Nat) : List Int :=
  if j = i then nbrs
  else
    match (List.range 4).find?
        (fun fj => (elements.getD j default).faces.getD fj [] = face) with
    | some fj => (nbrs.set (4*i + f) (Int.ofNat j)).set (4*j + fj) (Int.ofNat i)
    | none => nbrs

def naive_neighbours (elements : List Tetrahedron) : List Int :=
  let T := elements.length
  (List.range T).foldl (fun nbrs i =>
    (List.range 4).foldl (fun nbrs f =>
      if nbrs.getD (4*i + f) 0 ≠ NONE then nbrs
      else
        (List.range T).foldl
          (naive_step elements i f ((elements.getD i default).faces.getD f []))
          nbrs) nbrs)
    (List.replicate (T * 4) NONE)

/-- The body of the naive double loop for one `(element, face)` slot
(src/tests/egs-mesh-tests.cpp lines 13-27), named for proof bookkeeping. -/
def naive_body (elements : List Tetrahedron) (i f : Nat)
    (nbrs : List Int) : List Int :=
  if nbrs.getD (4*i + f) 0 ≠ NONE then nbrs
  else
    (List.range elements.length).foldl
      (naive_step elements i f ((elements.getD i default).faces.getD f []))
      nbrs

/-- The naive fold re-indexed by the flat slot position `p = 4*i + f`,
stopped after `k` slots (proof bookkeeping for the loop invariant). -/
def naiveFlat (elements : List Tetrahedron) (k : Nat) : List Int :=
  (List.range k).foldl
    (fun nbrs p => naive_body elements (p / 4) (p % 4) nbrs)
    (List.replicate (elements.length * 4) NONE)

/-- `std::vector<int>::at(i)` with an `int` index: the index converts to
`size_t`, so a negative or too-large index throws `std::out_of_range`. -/
def vecAt (v : List Int) (i : Int) : Except String Int :=
  if 0 ≤ i ∧ i.toNat < v.length then .ok (v.getD i.toNat 0)
  else .error "vector::at index out of range"

/-- `v.at(i) += 1` — bounds-checked read-modify-write. -/
def vecIncAt (v : List Int) (i : Int) : Except String (List Int) := do
  let x ← vecAt v i
  pure (v.set i.toNat (x + 1))

/-- `v[i]` read.  Out of range this is undefined behaviour in C++;
modelled as the default value `0` (never relied upon in-bounds). -/
def vecIx (v : List Int) (i : Int) : Int :=
  if 0 ≤ i then v.getD i.toNat 0 else 0

/-- `v[i] = x` write.  Out of range this is undefined behaviour in C++;
modelled as a no-op (never relied upon in-bounds). -/
def vecSetIx (v : List Int) (i : Int) (x : Int) : List Int :=
  if 0 ≤ i then v.set i.toNat x else v

/-- `for (int k = lo; k < hi; k++)` iteration range. -/
def intRange (lo hi : Int) : List Int :=
  (List.range (hi - lo).toNat).map (fun k => lo + Int.ofNat k)

/-- Return type of `elements_around_points` (src/neighbour.h lines 84-87). -/
structure EltsAroundPoints where
  elt_list : List Int
  list_indices : List Int
deriving Repr, DecidableEq, Inhabited

/-- `elements_around_points` (src/neighbour.h lines 109-163): builds the
CSR "elements incident to each node" index in two linear passes over the
flattened node list (four nodes per element): a counting pass, a
prefix-sum, a cursor-advancing fill pass, and a final right-shift of the
offsets.  The `assert` on the input length and the undefined behaviour of
`max_element` on an empty range are modelled as failures. -/
def elements_around_points (nodes : List Int) : Except String EltsAroundPoints := do
  if nodes.length % 4 ≠ 0 then
    .error "assertion failed: nodes.size() % NODES_PER_ELT == 0"
  else
  match nodes with
  | [] => .error "max_element on an empty range"
  | n0 :: rest => do
    let num_unique_nodes : Int := rest.foldl max n0
    -- `std::vector<int> indices(num_unique_nodes + 1, 0)`: the size
    -- converts to size_t, so a negative size is an allocation failure
    if num_unique_nodes + 1 < 0 then .error "vector allocation failure"
    else
    let indices0 : List Int := List.replicate (num_unique_nodes + 1).toNat 0
    let num_elts := nodes.length / 4
    -- counting pass: `indices.at(idx) += 1` for every node occurrence
    let indices1 ← (List.range num_elts).foldlM (fun ind i =>
      (List.range 4).foldlM (fun ind j => do
        let idx ← vecAt nodes (Int.ofNat (i * 4 + j))
        vecIncAt ind idx) ind) indices0
    -- prefix-sum pass: `indices.at(i) += indices.at(i-1)`
    let indices2 ← (List.range' 1 (indices1.length - 1)).foldlM (fun ind i => do
      let x ← vecAt ind (Int.ofNat i)
      let y ← vecAt ind (Int.ofNat (i - 1))
      pure (ind.set i (x + y))) indices1
    -- `std::vector<int> eltList(indices.back(), -1)`
    match indices2.getLast? with
    | none => .error "vector::back on an empty vector"
    | some back => do
      if back < 0 then .error "vector allocation failure"
      else
      let eltList0 : List Int := List.replicate back.toNat (-1)
      -- fill pass (state = (eltList, indices)): `auto node_pos =
      -- indices.at(node); eltList[node_pos] = i; indices.at(node) += 1`
      -- with `node = nodes[i*4+j] - 1`
      let s ← (List.range num_elts).foldlM (fun s i =>
        (List.range 4).foldlM (fun (s : List Int × List Int) j => do
          let node_pos ← vecAt s.2 (vecIx nodes (Int.ofNat (i * 4 + j)) - 1)
          let ind' ← vecIncAt s.2 (vecIx nodes (Int.ofNat (i * 4 + j)) - 1)
          pure (vecSetIx s.1 node_pos (Int.ofNat i), ind')) s)
        (eltList0, indices2)
      -- shift the offsets right by one and zero the first entry
      let sz := s.2.length
      let indices4 := (List.range (sz - 1)).foldl (fun ind k =>
        vecSetIx ind (Int.ofNat (sz - 1 - k))
          (vecIx ind (Int.ofNat (sz - 1 - k - 1)))) s.2
      pure ⟨s.1, vecSetIx indices4 0 0⟩

/-- The face of element `i` obtained by omitting node position `j`
(src/neighbour.h lines 198-208, the loop filling `face[]`). -/
def tn_face (element_nodes : List Int) (i j : Nat) : List Int :=
  ((List.range 4).filter (· ≠ j)).map
    (fun k => vecIx element_nodes (Int.ofNat (i * 4 + k)))

/-- The `num_shared` accumulation (src/neighbour.h lines 227-234): sum the
`face_point_flag` entries of the three nodes of candidate face
`other_face_idx` of element `elt`. -/
def tn_num_shared (element_nodes flags : List Int) (elt : Int)
    (other_face_idx : Nat) : Int :=
  ((List.range 4).filter (· ≠ other_face_idx)).foldl (fun acc ofp =>
    acc + vecIx flags (vecIx element_nodes (elt * 4 + Int.ofNat ofp) - 1)) 0

/-- The inner face loop over one candidate element (src/neighbour.h lines
226-240): for each of the candidate's four faces with `num_shared ==
NODES_PER_FACE`, write the two mutual neighbour entries. -/
def tn_mark (element_nodes flags : List Int) (i j : Nat) (nbrs : List Int)
    (elt : Int) : List Int :=
  (List.range 4).foldl (fun nbrs other_face_idx =>
    if tn_num_shared element_nodes flags elt other_face_idx = 3 then
      vecSetIx (vecSetIx nbrs (Int.ofNat (i * 4 + j)) elt)
        (elt * 4 + Int.ofNat other_face_idx) (Int.ofNat i)
    else nbrs) nbrs

/-- The candidate scan (src/neighbour.h lines 219-241): loop over the CSR
slot range of the face's first node, skipping the element itself. -/
def tn_scan (element_nodes eltList flags : List Int) (lo hi : Int)
    (i j : Nat) (nbrs : List Int) : Except String (List Int) :=
  (intRange lo hi).foldlM (fun nbrs elt_idx => do
    let elt ← vecAt eltList elt_idx
    if elt = Int.ofNat i then pure nbrs
    else pure (tn_mark element_nodes flags i j nbrs elt)) nbrs

/-- One face slot of the main loop (src/neighbour.h lines 193-246), with
state `(neighbours, face_point_flag)`: skip an already-matched slot,
otherwise build the face (omitting node position `j`), set the three face
flags, scan the candidates sharing the face's first node, and reset the
flags. -/
def tn_step (element_nodes eltList indices : List Int) (i j : Nat)
    (s : List Int × List Int) : Except String (List Int × List Int) :=
  if s.1.getD (i * 4 + j) 0 ≠ NONE then pure s
  else do
    let face := tn_face element_nodes i j
    let flags1 := face.foldl (fun fl nd => vecSetIx fl (nd - 1) 1) s.2
    let nbrs1 ← tn_scan element_nodes eltList flags1
      (vecIx indices (face.getD 0 0 - 1)) (vecIx indices (face.getD 0 0)) i j s.1
    pure (nbrs1, face.foldl (fun fl pt => vecSetIx fl (pt - 1) 0) flags1)

/-- `tetrahedron_neighbours` (src/neighbour.h lines 168-249): the fast
neighbour builder.  For each element `i` and face `j` whose slot is still
`NONE`, it builds the face by omitting node position `j`, marks the three
face nodes in `face_point_flag`, scans the elements incident to the face's
first node via the CSR index, and for every candidate face with all three
nodes marked (`num_shared == NODES_PER_FACE`) writes the two mutual
neighbour entries (without breaking out of the candidate scan).  Finally
it resets the marked flags. -/
def tetrahedron_neighbours (elements : List Tetrahedron) :
    Except String (List Int) := do
  let element_nodes := flatten_tetrahedron_vector elements
  let elt_indices ← elements_around_points element_nodes
  let eltList := elt_indices.elt_list
  let indices := elt_indices.list_indices
  let num_unique_nodes := indices.length - 1
  let num_elts := element_nodes.length / 4
  let nbrs0 : List Int := List.replicate (num_elts * 4) NONE
  let flags0 : List Int := List.replicate num_unique_nodes 0
  let s ← (List.range num_elts).foldlM (fun s i =>
    (List.range 4).foldlM (fun s j =>
      tn_step element_nodes eltList indices i j s) s) (nbrs0, flags0)
  pure s.1

/-- The class invariant a `mesh_neighbours::Tetrahedron` object enjoys
after its constructor ran: four distinct non-negative tags, stored in
ascending order (hence strictly ascending). -/
def Tetrahedron.valid (t : Tetrahedron) : Prop :=
  0 ≤ t.a ∧ t.a < t.b ∧ t.b < t.c ∧ t.c < t.d

/-- Positions `p < P` at which the flattened node list holds the tag `v`
(specification-side helper for reasoning about the CSR index). -/
def occ (nodes : List Int) (P : Nat) (v : Int) : List Nat :=
  (List.range P).filter (fun p => nodes.getD p 0 = v)

/-- Number of occurrences of the tags `0, 1, …, k` in the node list — the
intended value of the CSR offset `list_indices[k]`. -/
def cntSum (nodes : List Int) (k : Nat) : Nat :=
  ∑ m ∈ Finset.range (k + 1), nodes.count (m : Int)

/-- The CSR slice for node `n` (`n ≥ 1`):
`elt_list[list_indices[n-1] .. list_indices[n]]`. -/
def csrSlice (r : EltsAroundPoints) (n : Nat) : List Int :=
  (r.elt_list.drop (r.list_indices.getD (n - 1) 0).toNat).take
    ((r.list_indices.getD n 0).toNat - (r.list_indices.getD (n - 1) 0).toNat)

/-- The indices of the elements whose four nodes contain the tag `v`, in
increasing order (specification-side description of a CSR slice). -/
def incident (elements : List Tetrahedron) (v : Int) : List Int :=
  ((List.range elements.length).filter
    (fun i => decide (v ∈ (elements.getD i default).nodes))).map Int.ofNat

/-- The face triple stored at flat neighbour-table slot `p = 4*element +
face` (specification-side helper for the reciprocity invariant). -/
def slotFace (elements : List Tetrahedron) (p : Nat) : List Int :=
  (elements.getD (p / 4) default).faces.getD (p % 4) []

end mesh_neighbours

/-! ## The msh file parser (src/msh_parser.h)

`EGS_Mesh` and its member structs are the C++ classes of src/msh_parser.h
lines 41-96; the `msh` namespace embeds `msh_parser` (renamed only because
of a local naming restriction).  `std::istream` is modelled as the
remaining character list plus the `failbit` and `eofbit` flags (`badbit`
only arises from system-level IO errors, which have no counterpart here,
so `input.bad()` is modelled as `false`).  C++ `double` values are carried
only from the input to `Node` fields and never inspected by any claim, so
a parsed double is modelled by the token text it consumed; extraction
success and failure follow the C++ rules. -/

/-- `EGS_Mesh::Tetrahedron` (src/msh_parser.h lines 44-53): stores the
medium tag and the four node tags exactly as passed to the constructor. -/
structure EGS_Mesh.Tetrahedron where
  medium_tag : Int := -1
  a : Int := -1
  b : Int := -1
  c : Int := -1
  d : Int := -1
deriving Repr, DecidableEq, Inhabited

/-- `EGS_Mesh::Node` (src/msh_parser.h lines 56-63). -/
structure EGS_Mesh.Node where
  tag : Int := -1
  x : String := ""
  y : String := ""
  z : String := ""
deriving Repr, DecidableEq, Inhabited

/-- `EGS_Mesh::Medium` (src/msh_parser.h lines 66-71). -/
structure EGS_Mesh.Medium where
  tag : Int := -1
  medium_name : String := ""
deriving Repr, DecidableEq, Inhabited

/-- `EGS_Mesh` (src/msh_parser.h lines 41-96): the constructor stores the
three vectors; `elements()`, `nodes()`, `materials()` return them. -/
structure EGS_Mesh where
  elements : List EGS_Mesh.Tetrahedron
  nodes : List EGS_Mesh.Node
  materials : List EGS_Mesh.Medium
deriving Repr, DecidableEq, Inhabited

namespace msh

/-- `std::isspace` for the default C locale. -/
def isSpace (c : Char) : Bool :=
  c = ' ' || c = '\t' || c = '\n' || c = '\r' || c = '\x0b' || c = '\x0c'

/-- `std::istream` state: remaining characters, `failbit`, `eofbit`. -/
structure Cin where
  data : List Char
  fail : Bool
  eof : Bool
deriving Repr, DecidableEq, Inhabited

/-- A fresh stream over a string (also used for `std::istringstream`). -/
def Cin.mk0 (s : String) : Cin :=
  ⟨s.data, false, false⟩

/-- Split at the first newline: the line, the rest, and whether the end of
input was reached before a newline was found. -/
def takeLine : List Char → List Char × List Char × Bool
  | [] => ([], [], true)
  | c :: cs =>
    if c = '\n' then ([], cs, false)
    else
      let t := takeLine cs
      (c :: t.1, t.2.1, t.2.2)

/-- `std::getline(input, line)`: fails without reading if the stream is
already failed or at end of input; otherwise reads up to and consuming a
newline, setting `eofbit` when the input ends before a newline. -/
def cin_getline (st : Cin) : String × Cin :=
  if st.fail || st.eof then ("", { st with fail := true })
  else if st.data.isEmpty then ("", ⟨[], true, true⟩)
  else
    let t := takeLine st.data
    (String.mk t.1, ⟨t.2.1, false, t.2.2⟩)

/-- `input >> s` for a `std::string`: skip whitespace, read to the next
whitespace; hitting the end of input first sets `failbit` and `eofbit`. -/
def cin_read_string (st : Cin) : String × Cin :=
  if st.fail || st.eof then ("", { st with fail := true })
  else
    let rest := st.data.dropWhile (fun c => isSpace c)
    if rest.isEmpty then ("", ⟨[], true, true⟩)
    else
      let tok := rest.takeWhile (fun c => !isSpace c)
      let rest2 := rest.dropWhile (fun c => !isSpace c)
      (String.mk tok, ⟨rest2, false, rest2.isEmpty⟩)

def digitsVal (ds : List Char) : Nat :=
  ds.foldl (fun acc c => acc * 10 + (c.toNat - 48)) 0

def INT_MAX : Int := 2147483647

def INT_MIN : Int := -2147483648

def SIZET_MAX : Nat := 18446744073709551615

/-- `input >> v` for an `int` (C++11 `num_get` semantics): a failed sentry
(stream already failed or at end) leaves the value unchanged; reaching the
end of input while skipping whitespace fails without touching the value; a
field with no digits stores 0 and fails; an out-of-range field stores the
nearest `int` limit and fails. -/
def rdInt (st : Cin) (cur : Int) : Int × Cin :=
  if st.fail || st.eof then (cur, { st with fail := true })
  else
    let rest := st.data.dropWhile (fun c => isSpace c)
    if rest.isEmpty then (cur, ⟨[], true, true⟩)
    else
      let sign : Int := if rest.headD ' ' = '-' then -1 else 1
      let rest2 := if rest.headD ' ' = '-' || rest.headD ' ' = '+' then
        rest.tail else rest
      let digs := rest2.takeWhile (fun c => c.isDigit)
      let rest3 := rest2.dropWhile (fun c => c.isDigit)
      if digs.isEmpty then (0, ⟨rest3, true, rest3.isEmpty⟩)
      else
        let v : Int := sign * Int.ofNat (digitsVal digs)
        if v > INT_MAX then (INT_MAX, ⟨rest3, true, rest3.isEmpty⟩)
        else if v < INT_MIN then (INT_MIN, ⟨rest3, true, rest3.isEmpty⟩)
        else (v, ⟨rest3, false, rest3.isEmpty⟩)

/-- `input >> v` for a `std::size_t`: like `rdInt` with unsigned wrapping
of a minus sign and clamping to `SIZET_MAX` on overflow. -/
def rdSizeT (st : Cin) (cur : Nat) : Nat × Cin :=
  if st.fail || st.eof then (cur, { st with fail := true })
  else
    let rest := st.data.dropWhile (fun c => isSpace c)
    if rest.isEmpty then (cur, ⟨[], true, true⟩)
    else
      let neg : Bool := rest.headD ' ' = '-'
      let rest2 := if rest.headD ' ' = '-' || rest.headD ' ' = '+' then
        rest.tail else rest
      let digs := rest2.takeWhile (fun c => c.isDigit)
      let rest3 := rest2.dropWhile (fun c => c.isDigit)
      if digs.isEmpty then (0, ⟨rest3, true, rest3.isEmpty⟩)
      else
        let n := digitsVal digs
        if n > SIZET_MAX then (SIZET_MAX, ⟨rest3, true, rest3.isEmpty⟩)
        else
          let v := if neg then (SIZET_MAX + 1 - n % (SIZET_MAX + 1))
            % (SIZET_MAX + 1) else n
          (v, ⟨rest3, false, rest3.isEmpty⟩)

/-- `input >> v` for a `double`: the accepted field is
`[sign] (digits [. digits] | . digits) [e|E [sign] digits]`; the numeric
value is never inspected by the program paths under study, so the consumed
field text stands for it. -/
def rdDouble (st : Cin) (cur : String) : String × Cin :=
  if st.fail || st.eof then (cur, { st with fail := true })
  else
    let rest := st.data.dropWhile (fun c => isSpace c)
    if rest.isEmpty then (cur, ⟨[], true, true⟩)
    else
      let rest2 := if rest.headD ' ' = '-' || rest.headD ' ' = '+' then
        rest.tail else rest
      let ipart := rest2.takeWhile (fun c => c.isDigit)
      let rest3 := rest2.dropWhile (fun c => c.isDigit)
      let rest4 := if rest3.headD ' ' = '.' then rest3.tail else rest3
      let fpart := rest4.takeWhile (fun c => c.isDigit)
      let rest5 := rest4.dropWhile (fun c => c.isDigit)
      if ipart.isEmpty && fpart.isEmpty then (cur, ⟨rest5, true, rest5.isEmpty⟩)
      else
        let hasExp := rest5.headD ' ' = 'e' || rest5.headD ' ' = 'E'
        let rest6 := if hasExp then rest5.tail else rest5
        let rest7 := if hasExp && (rest6.headD ' ' = '-' ||
          rest6.headD ' ' = '+') then rest6.tail else rest6
        let epart := rest7.takeWhile (fun c => c.isDigit)
        let rest8 := rest7.dropWhile (fun c => c.isDigit)
        if hasExp && epart.isEmpty then (cur, ⟨rest8, true, rest8.isEmpty⟩)
        else
          let rest9 := if hasExp then rest8 else rest5
          (String.mk (rest.take (rest.length - rest9.length)),
            ⟨rest9, false, rest9.isEmpty⟩)

/-- `rtrim` (src/msh_parser.h lines 110-114): strip trailing whitespace. -/
def rtrim (s : String) : String :=
  String.mk ((s.data.reverse.dropWhile (fun c => isSpace c)).reverse)

/-- `skip num lines`: the result-ignoring getline loops of the parser. -/
def skipLines (st : Cin) (n : Nat) : Cin :=
  (List.range n).foldl (fun st _ => (cin_getline st).2) st

/-- `MshVersion` (src/msh_parser.h line 116). -/
inductive MshVersion where
  | v41
deriving Repr, DecidableEq, Inhabited

/-- The version / binary-flag / size-of-size-t checks of
`parse_msh_version` (src/msh_parser.h lines 150-161), after the
`input.fail()` check. -/
def check_format_tokens (version : String) (binary_flag sizet : Int) :
    Except String Unit :=
  if version ≠ "4.1" then
    .error ("unsupported msh version `" ++ version ++
      "`, the only supported version is 4.1")
  else if binary_flag ≠ 0 then
    if binary_flag = 1 then
      .error ("binary msh files are unsupported, " ++
        "please convert this file to ascii and try again")
    else
      .error "failed to parse msh version"
  else if sizet ≠ 8 then
    .error "msh file size_t must be 8"
  else
    .ok ()

/-- `parse_msh_version` (src/msh_parser.h lines 123-172). -/
def parse_msh_version (input : Cin) : Except String (MshVersion × Cin) :=
  if input.fail then .error "bad input to parse_msh_version"
  else
    let g1 := cin_getline input
    -- input.bad() is never set in this model (no system IO errors)
    if g1.2.eof then .error "unexpected end of input"
    else
      let format_line := rtrim g1.1
      if format_line ≠ "$MeshFormat" then
        .error ("expected $MeshFormat, got " ++ format_line)
      else
        let r1 := cin_read_string g1.2
        let r2 := rdInt r1.2 (-1)
        let r3 := rdInt r2.2 (-1)
        if r3.2.fail then .error "failed to parse msh version"
        else
          match check_format_tokens r1.1 r2.1 r3.1 with
          | .error e => .error e
          | .ok _ =>
            let g2 := cin_getline r3.2
            let g3 := cin_getline g2.2
            let line3 := rtrim g3.1
            if line3 ≠ "$EndMeshFormat" then
              .error ("expected $EndMeshFormat, got `" ++ line3 ++ "`")
            else
              .ok (MshVersion.v41, g3.2)

/-- `msh41::MeshVolume` (src/msh_parser.h lines 179-183). -/
structure MeshVolume where
  tag : Int := -1
  group : Int := -1
deriving Repr, DecidableEq, Inhabited

/-- `msh41::Node` (src/msh_parser.h lines 186-192). -/
structure Node where
  tag : Int := -1
  x : String := ""
  y : String := ""
  z : String := ""
deriving Repr, DecidableEq, Inhabited

/-- `msh41::Tetrahedron` (src/msh_parser.h lines 195-203). -/
structure Tetrahedron where
  tag : Int := -1
  volume : Int := -1
  a : Int := -1
  b : Int := -1
  c : Int := -1
  d : Int := -1
deriving Repr, DecidableEq, Inhabited

/-- `msh41::PhysicalGroup` (src/msh_parser.h lines 206-210). -/
structure PhysicalGroup where
  tag : Int := -1
  name : String := ""
deriving Repr, DecidableEq, Inhabited

/-- `check_unique_tags` (src/msh_parser.h lines 216-227), applied to the
extracted tag list: returns `(false, first duplicate)` or `(true, 0)`. -/
def check_unique_tags : List Int → List Int → Bool × Int
  | [], _ => (true, 0)
  | v :: rest, seen =>
    if v ∈ seen then (false, v) else check_unique_tags rest (v :: seen)

/-- Conversion of a `std::size_t` value to `int` (implementation-defined
in C++; modelled as the usual wrap modulo 2^32). -/
def int_of_sizet (n : Nat) : Int :=
  let m := n % 4294967296
  if m ≤ 2147483647 then Int.ofNat m else Int.ofNat m - 4294967296

/-- The `while (std::getline(input, line))` loop of `parse_entities`
(src/msh_parser.h lines 261-293), reading 3D entity lines until
`$EndEntities`; each iteration consumes at least one character, so fuel
`input.data.length + 1` never runs out. -/
def entities_loop : Nat → Cin → List MeshVolume →
    Except String (List MeshVolume × Cin)
  | 0, _, _ => .error "loop fuel exhausted"
  | fuel + 1, st, volumes =>
    let g := cin_getline st
    if g.2.fail then .ok (volumes, g.2)
    else
      let line := rtrim g.1
      if line = "$EndEntities" then .ok (volumes, g.2)
      else
        let ls0 := Cin.mk0 line
        let t1 := rdInt ls0 (-1)
        let d1 := rdDouble t1.2 ""
        let d2 := rdDouble d1.2 ""
        let d3 := rdDouble d2.2 ""
        let d4 := rdDouble d3.2 ""
        let d5 := rdDouble d4.2 ""
        let d6 := rdDouble d5.2 ""
        let t2 := rdSizeT d6.2 0
        let t3 := rdInt t2.2 (-1)
        if t3.2.fail then
          .error "$Entities parsing failed, 3d volume parsing failed"
        else if t2.1 = 0 then
          .error ("$Entities parsing failed, volume " ++ toString t1.1 ++
            " was not assigned a physical group")
        else if t2.1 ≠ 1 then
          .error ("$Entities parsing failed, volume " ++ toString t1.1 ++
            " has more than one physical group")
        else
          entities_loop fuel g.2 (volumes ++ [⟨t1.1, t3.1⟩])

/-- `parse_entities` (src/msh_parser.h lines 232-304).  Note: the header
check tests `input.fail()` — the outer stream, untouched by the
line-stream extractions — so a short header line is only caught by the
`< 0` value checks. -/
def parse_entities (input : Cin) : Except String (List MeshVolume × Cin) :=
  let g := cin_getline input
  let ls0 := Cin.mk0 g.1
  let t0 := rdInt ls0 (-1)
  let t1 := rdInt t0.2 (-1)
  let t2 := rdInt t1.2 (-1)
  let t3 := rdInt t2.2 (-1)
  if g.2.fail || t0.1 < 0 || t1.1 < 0 || t2.1 < 0 || t3.1 < 0 then
    .error "$Entities parsing failed"
  else if t3.1 = 0 then
    .error "$Entities parsing failed, no volumes found"
  else
    let st1 := skipLines g.2 (t0.1 + t1.1 + t2.1).toNat
    match entities_loop (st1.data.length + 1) st1 [] with
    | .error e => .error e
    | .ok (volumes, st2) =>
      if volumes.length ≠ t3.1.toNat then
        .error ("$Entities parsing failed, expected " ++ toString t3.1 ++
          " volumes but got " ++ toString volumes.length)
      else
        let u := check_unique_tags (volumes.map (fun v => v.tag)) []
        if !u.1 then
          .error ("$Entities section parsing failed, found duplicate " ++
            "volume tag " ++ toString u.2)
        else
          .ok (volumes, st2)

/-- `parse_node_bloc` (src/msh_parser.h lines 309-364). -/
def parse_node_bloc (input : Cin) : Except String (List Node × Cin) :=
  let g := cin_getline input
  let ls0 := Cin.mk0 g.1
  let t0 := rdInt ls0 (-1)
  let t1 := rdInt t0.2 (-1)
  let t2 := rdInt t1.2 (-1)
  let t3 := rdSizeT t2.2 SIZET_MAX
  if t3.2.fail || t0.1 = -1 || t1.1 = -1 || t2.1 = -1 ||
      t3.1 = SIZET_MAX then
    .error "Node bloc parsing failed"
  else if t0.1 < 0 || t0.1 > 3 then
    .error ("Node bloc parsing failed for entity " ++ toString t1.1 ++
      ", got dimension " ++ toString t0.1 ++ ", expected 0, 1, 2, or 3")
  else do
    let entity := t1.1
    let num_nodes := t3.1
    -- node tag lines
    let s1 ← (List.range num_nodes).foldlM
      (fun (acc : List Node × Cin) _ => do
        let g := cin_getline acc.2
        let ls := Cin.mk0 g.1
        let t := rdSizeT ls SIZET_MAX
        if t.2.fail || t.1 = SIZET_MAX then
          .error ("Node bloc parsing failed during node tag section of " ++
            "entity " ++ toString entity)
        else
          pure (acc.1 ++ [{ tag := int_of_sizet t.1 }], g.2))
      ([], g.2)
    -- node coordinate lines (`nodes.at(i)` is always in bounds here)
    let s2 ← (List.range num_nodes).foldlM
      (fun (acc : List Node × Cin) i => do
        let g := cin_getline acc.2
        let ls := Cin.mk0 g.1
        let dx := rdDouble ls ""
        let dy := rdDouble dx.2 ""
        let dz := rdDouble dy.2 ""
        if dz.2.fail then
          .error ("Node bloc parsing failed during node coordinate " ++
            "section of entity " ++ toString entity)
        else
          pure (acc.1.set i
            { acc.1.getD i default with x := dx.1, y := dy.1, z := dz.1 },
            g.2))
      (s1.1, s1.2)
    if s2.1.length ≠ num_nodes then
      .error ("Node bloc parsing failed, expected " ++ toString num_nodes ++
        " nodes but read " ++ toString s2.1.length ++ " for entity " ++
        toString entity)
    else
      pure (s2.1, s2.2)

/-- `parse_nodes` (src/msh_parser.h lines 369-414). -/
def parse_nodes (input : Cin) : Except String (List Node × Cin) :=
  let g := cin_getline input
  let ls0 := Cin.mk0 g.1
  let t0 := rdSizeT ls0 SIZET_MAX
  let t1 := rdSizeT t0.2 SIZET_MAX
  let t2 := rdSizeT t1.2 SIZET_MAX
  let t3 := rdSizeT t2.2 SIZET_MAX
  if t3.2.fail || t0.1 = SIZET_MAX || t1.1 = SIZET_MAX ||
      t2.1 = SIZET_MAX || t3.1 = SIZET_MAX then
    .error "$Nodes section parsing failed, missing metadata"
  else if t3.1 > INT_MAX.toNat then
    .error ("Max node tag is too large (" ++ toString t3.1 ++
      "), limit is " ++ toString INT_MAX.toNat)
  else do
    let s1 ← (List.range t0.1).foldlM
      (fun (acc : List Node × Cin) _ =>
        match parse_node_bloc acc.2 with
        | .error e => .error ("$Nodes section parsing failed\n" ++ e)
        | .ok r => pure (acc.1 ++ r.1, r.2))
      ([], g.2)
    if s1.1.length ≠ t1.1 then
      .error ("$Nodes section parsing failed, expected " ++ toString t1.1 ++
        " nodes but read " ++ toString s1.1.length)
    else
      let g2 := cin_getline s1.2
      if rtrim g2.1 ≠ "$EndNodes" then
        .error "$Nodes section parsing failed, expected $EndNodes"
      else
        let u := check_unique_tags (s1.1.map (fun n => n.tag)) []
        if !u.1 then
          .error ("$Nodes section parsing failed, found duplicate node " ++
            "tag " ++ toString u.2)
        else
          pure (s1.1, g2.2)

/-- The `while (input)` loop of `parse_groups` (src/msh_parser.h lines
437-471), reading group lines until `$EndPhysicalNames`. -/
def groups_loop : Nat → Cin → List PhysicalGroup →
    Except String (List PhysicalGroup × Cin)
  | 0, _, _ => .error "loop fuel exhausted"
  | fuel + 1, st, groups =>
    if st.fail then .ok (groups, st)
    else
      let g := cin_getline st
      let line := rtrim g.1
      if line = "$EndPhysicalNames" then .ok (groups, g.2)
      else
        let ls0 := Cin.mk0 line
        let t0 := rdInt ls0 (-1)
        let t1 := rdInt t0.2 (-1)
        if t1.2.eof then
          .error "unexpected end of file, expected $EndPhysicalNames"
        else if t1.2.fail then
          .error ("physical group parsing failed: " ++ line)
        else if t0.1 ≠ 3 then groups_loop fuel g.2 groups
        else
          match line.data.findIdx? (fun c => c = '"') with
          | none => .error ("physical group names must be quoted: " ++ line)
          | some name_start =>
            let name_end := line.data.length - 1 -
              ((line.data.reverse.findIdx? (fun c => c = '"')).getD 0)
            if name_end = name_start then
              .error ("couldn't find closing quote for physical group: " ++
                line)
            else if name_end - name_start = 1 then
              .error ("empty physical group name: " ++ line)
            else
              groups_loop fuel g.2 (groups ++ [⟨t1.1,
                String.mk ((line.data.drop (name_start + 1)).take
                  (name_end - name_start - 1))⟩])

/-- `parse_groups` (src/msh_parser.h lines 419-478). -/
def parse_groups (input : Cin) : Except String (List PhysicalGroup × Cin) :=
  let g := cin_getline input
  let ls0 := Cin.mk0 g.1
  let t0 := rdInt ls0 (-1)
  if t0.2.fail || t0.1 = -1 then .error "$PhysicalNames parsing failed"
  else
    match groups_loop (g.2.data.length + 2) g.2 [] with
    | .error e => .error e
    | .ok (groups, st2) =>
      let u := check_unique_tags (groups.map (fun gr => gr.tag)) []
      if !u.1 then
        .error ("$PhysicalNames section parsing failed, found duplicate " ++
          "tag " ++ toString u.2)
      else
        .ok (groups, st2)

/-- `parse_element_bloc` (src/msh_parser.h lines 483-541). -/
def parse_element_bloc (input : Cin) :
    Except String (List Tetrahedron × Cin) :=
  let g := cin_getline input
  let ls0 := Cin.mk0 g.1
  let t0 := rdInt ls0 (-1)
  let t1 := rdInt t0.2 (-1)
  let t2 := rdInt t1.2 (-1)
  let t3 := rdSizeT t2.2 SIZET_MAX
  if t3.2.fail || t0.1 = -1 || t1.1 = -1 || t2.1 = -1 ||
      t3.1 = SIZET_MAX then
    .error "Element bloc parsing failed"
  else if t0.1 < 0 || t0.1 > 3 then
    .error ("Element bloc parsing failed for entity " ++ toString t1.1 ++
      ", got dimension " ++ toString t0.1 ++ ", expected 0, 1, 2, or 3")
  else if t0.1 ≠ 3 then
    .ok ([], skipLines g.2 t3.1)
  else if t2.1 ≠ 4 then
    .error ("Element bloc parsing failed for entity " ++ toString t1.1 ++
      ", got non-tetrahedral mesh element type " ++ toString t2.1)
  else
    let entity := t1.1
    (List.range t3.1).foldlM
      (fun (acc : List Tetrahedron × Cin) _ => do
        let g := cin_getline acc.2
        let ls := Cin.mk0 g.1
        let r0 := rdInt ls (-1)
        let r1 := rdInt r0.2 (-1)
        let r2 := rdInt r1.2 (-1)
        let r3 := rdInt r2.2 (-1)
        let r4 := rdInt r3.2 (-1)
        if r4.2.fail || r0.1 = -1 || r1.1 = -1 || r2.1 = -1 ||
            r3.1 = -1 || r4.1 = -1 then
          .error ("Element bloc parsing failed for entity " ++
            toString entity)
        else
          pure (acc.1 ++ [⟨r0.1, entity, r1.1, r2.1, r3.1, r4.1⟩], g.2))
      ([], g.2)

/-- `parse_elements` (src/msh_parser.h lines 546-591). -/
def parse_elements (input : Cin) :
    Except String (List Tetrahedron × Cin) :=
  let g := cin_getline input
  let ls0 := Cin.mk0 g.1
  let t0 := rdSizeT ls0 SIZET_MAX
  let t1 := rdSizeT t0.2 SIZET_MAX
  let t2 := rdSizeT t1.2 SIZET_MAX
  let t3 := rdSizeT t2.2 SIZET_MAX
  if t3.2.fail || t0.1 = SIZET_MAX || t1.1 = SIZET_MAX ||
      t2.1 = SIZET_MAX || t3.1 = SIZET_MAX then
    .error "$Elements section parsing failed, missing metadata"
  else do
    let s ← (List.range t0.1).foldlM
      (fun (acc : List Tetrahedron × Cin) _ =>
        match parse_element_bloc acc.2 with
        | .error e => .error ("$Elements section parsing failed\n" ++ e)
        | .ok r => pure (acc.1 ++ r.1, r.2))
      ([], g.2)
    let g2 := cin_getline s.2
    if rtrim g2.1 ≠ "$EndElements" then
      .error "$Elements section parsing failed, expected $EndElements"
    else if s.1.length = 0 then
      .error "$Elements section parsing failed, no tetrahedral elements were read"
    else
      let u := check_unique_tags (s.1.map (fun e => e.tag)) []
      if !u.1 then
        .error ("$Elements section parsing failed, found duplicate " ++
          "tetrahedron tag " ++ toString u.2)
      else
        pure (s.1, g2.2)

/-- The local state of `parse_body`'s dispatch loop
(src/msh_parser.h lines 594-616). -/
structure BodyAcc where
  nodes : List Node
  volumes : List MeshVolume
  groups : List PhysicalGroup
  elements : List Tetrahedron
deriving Repr, DecidableEq, Inhabited

/-- The `while (std::getline(input, input_line))` dispatch loop of
`parse_body` (src/msh_parser.h lines 601-616): each recognised section
header hands the stream to its section parser and overwrites that
section's accumulator. -/
def body_loop : Nat → Cin → BodyAcc → Except String (BodyAcc × Cin)
  | 0, _, _ => .error "loop fuel exhausted"
  | fuel + 1, st, acc =>
    let g := cin_getline st
    if g.2.fail then .ok (acc, g.2)
    else
      let line := rtrim g.1
      if line = "$MeshFormat" then .ok (acc, g.2)
      else if line = "$Entities" then
        match parse_entities g.2 with
        | .error e => .error e
        | .ok r => body_loop fuel r.2 { acc with volumes := r.1 }
      else if line = "$PhysicalNames" then
        match parse_groups g.2 with
        | .error e => .error e
        | .ok r => body_loop fuel r.2 { acc with groups := r.1 }
      else if line = "$Nodes" then
        match parse_nodes g.2 with
        | .error e => .error e
        | .ok r => body_loop fuel r.2 { acc with nodes := r.1 }
      else if line = "$Elements" then
        match parse_elements g.2 with
        | .error e => .error e
        | .ok r => body_loop fuel r.2 { acc with elements := r.1 }
      else body_loop fuel g.2 acc

/-- The `mesh_elts` assembly loop of `parse_body` (src/msh_parser.h lines
656-663): element `i` of the mesh stores `element_groups[i]` and the four
node tags of parsed element `i` exactly as they were read. -/
def assemble_elements (element_groups : List Int)
    (elements : List Tetrahedron) : List EGS_Mesh.Tetrahedron :=
  (List.range elements.length).map (fun i =>
    ⟨element_groups.getD i (-1), (elements.getD i default).a,
      (elements.getD i default).b, (elements.getD i default).c,
      (elements.getD i default).d⟩)

/-- `parse_body` (src/msh_parser.h lines 593-682). -/
def parse_body (input : Cin) : Except String EGS_Mesh := do
  let r ← body_loop (input.data.length + 1) input ⟨[], [], [], []⟩
  let acc := r.1
  if acc.volumes.isEmpty then .error "No volumes were parsed"
  else if acc.nodes.isEmpty then .error "No nodes were parsed"
  else if acc.groups.isEmpty then .error "No groups were parsed"
  else if acc.elements.isEmpty then .error "No tetrahedrons were parsed"
  else do
    let group_tags := acc.groups.map (fun gr => gr.tag)
    let volume_groups ← acc.volumes.foldlM
      (fun (vg : List (Int × Int)) v =>
        if v.group ∈ group_tags then pure (vg ++ [(v.tag, v.group)])
        else .error ("volume " ++ toString v.tag ++
          " had unknown physical group tag " ++ toString v.group))
      []
    let element_groups ← acc.elements.foldlM
      (fun (eg : List Int) e =>
        match volume_groups.find? (fun pr => pr.1 = e.volume) with
        | some pr => pure (eg ++ [pr.2])
        | none => .error ("tetrahedron " ++ toString e.tag ++
            " had unknown volume tag " ++ toString e.volume))
      []
    pure ⟨assemble_elements element_groups acc.elements,
      acc.nodes.map (fun n => ⟨n.tag, n.x, n.y, n.z⟩),
      acc.groups.map (fun gr => ⟨gr.tag, gr.name⟩)⟩

/-- `parse_msh_file` (src/msh_parser.h lines 691-704). -/
def parse_msh_file (input : Cin) : Except String EGS_Mesh :=
  match parse_msh_version input with
  | .error e => .error e
  | .ok (MshVersion.v41, st) =>
    match parse_body st with
    | .ok m => .ok m
    | .error e => .error ("msh 4.1 parsing failed\n" ++ e)

/-- A complete msh 4.1 file whose single element line lists its node tags
out of ascending order (`2 1 3 4`). -/
def c4file : String :=
  "$MeshFormat\n4.1 0 8\n$EndMeshFormat\n" ++
  "$PhysicalNames\n1\n3 1 \"water\"\n$EndPhysicalNames\n" ++
  "$Entities\n0 0 0 1\n1 0 0 0 1 1 1 1 1\n$EndEntities\n" ++
  "$Nodes\n1 4 1 4\n3 1 0 4\n1\n2\n3\n4\n" ++
  "0 0 0\n1 0 0\n0 1 0\n0 0 1\n$EndNodes\n" ++
  "$Elements\n1 1 1 1\n3 1 4 1\n1 2 1 3 4\n$EndElements\n"

end msh

namespace mesh_neighbours

/-! ### Generic lemmas about the `Except` monad and monadic folds -/

theorem bind_eq_ok {ε α β : Type} {x : Except ε α} {f : α → Except ε β}
    {b : β} (h : (x >>= f) = .ok b) : ∃ a, x = .ok a ∧ f a = .ok b := by
  cases x with
  | error e => simp [Bind.bind, Except.bind] at h
  | ok a => exact ⟨a, rfl, by simpa [Bind.bind, Except.bind] using h⟩

theorem ok_bind {ε α β : Type} (a : α) (f : α → Except ε β) :
    (Except.ok a >>= f) = f a := rfl

theorem vecSetIx_eq_set (l : List Int) (i : Int) (hi : 0 ≤ i) (x : Int) :
    vecSetIx l i x = l.set i.toNat x := by
  unfold vecSetIx
  rw [if_pos hi]

theorem vecIx_eq_getD (l : List Int) (i : Int) (hi : 0 ≤ i) :
    vecIx l i = l.getD i.toNat 0 := by
  unfold vecIx
  rw [if_pos hi]

theorem foldlM_ok_forall {α σ ε : Type} {f : σ → α → Except ε σ}
    {l : List α} {s0 s1 : σ} (h : l.foldlM f s0 = .ok s1) :
    ∀ a ∈ l, ∃ s s', f s a = .ok s' := by
  induction l generalizing s0 with
  | nil => intro a ha; cases ha
  | cons x xs ih =>
    intro a ha
    rw [List.foldlM_cons] at h
    obtain ⟨s, hs, hrest⟩ := bind_eq_ok h
    rcases List.mem_cons.mp ha with rfl | ha
    · exact ⟨s0, s, hs⟩
    · exact ih hrest a ha

theorem vecAt_ok_nonneg {v : List Int} {i x : Int}
    (h : vecAt v i = .ok x) : 0 ≤ i := by
  unfold vecAt at h
  split at h
  next hc => exact hc.1
  next => cases h

theorem init_le_foldl_max (l : List Int) : ∀ a : Int, a ≤ l.foldl max a := by
  induction l with
  | nil => intro a; simp
  | cons y ys ih =>
    intro a
    rw [List.foldl_cons]
    exact le_trans (le_max_left a y) (ih (max a y))

theorem mem_le_foldl_max (l : List Int) :
    ∀ a x : Int, x ∈ l → x ≤ l.foldl max a := by
  induction l with
  | nil => intro a x hx; cases hx
  | cons y ys ih =>
    intro a x hx
    rw [List.foldl_cons]
    rcases List.mem_cons.mp hx with rfl | hx'
    · exact le_trans (le_max_right a x) (init_le_foldl_max ys (max a x))
    · exact ih (max a y) x hx'

theorem le_foldl_max (l : List Int) (a x : Int) (hx : x ∈ a :: l) :
    x ≤ l.foldl max a := by
  rcases List.mem_cons.mp hx with rfl | hx'
  · exact init_le_foldl_max l x
  · exact mem_le_foldl_max l a x hx'

theorem foldl_max_mem (l : List Int) : ∀ a : Int, l.foldl max a ∈ a :: l := by
  induction l with
  | nil => intro a; simp
  | cons y ys ih =>
    intro a
    rw [List.foldl_cons]
    rcases List.mem_cons.mp (ih (max a y)) with h | h
    · rcases max_choice a y with hm | hm <;> rw [h, hm] <;> simp
    · simp [List.mem_cons_of_mem, h]

/-- Executing a doubly-nested `foldlM` over `List.range T` (outer) and
`List.range 4` (inner) while maintaining an invariant indexed by the flat
position `i*4 + j`. -/
theorem nested4_foldlM_inv {σ : Type} (body : Nat → Nat → σ → Except String σ)
    (Inv : Nat → σ → Prop) (T : Nat)
    (hstep : ∀ i j s, i < T → j < 4 → Inv (i * 4 + j) s →
      ∃ s', body i j s = .ok s' ∧ Inv (i * 4 + j + 1) s') :
    ∀ s0, Inv 0 s0 →
      ∃ s1, (List.range T).foldlM (fun s i =>
          (List.range 4).foldlM (fun s j => body i j s) s) s0 = .ok s1 ∧
        Inv (4 * T) s1 := by
  induction T with
  | zero => intro s0 h0; exact ⟨s0, rfl, h0⟩
  | succ T ih =>
    intro s0 h0
    obtain ⟨sm, hsm, hinvm⟩ := ih
      (fun i j s hi hj h => hstep i j s (Nat.lt_succ_of_lt hi) hj h) s0 h0
    have h0' : Inv (T * 4 + 0) sm := by
      have : 4 * T = T * 4 + 0 := by omega
      rwa [this] at hinvm
    obtain ⟨s1, hb1, hi1⟩ := hstep T 0 sm (Nat.lt_succ_self T) (by omega) h0'
    obtain ⟨s2, hb2, hi2⟩ := hstep T 1 s1 (Nat.lt_succ_self T) (by omega) hi1
    obtain ⟨s3, hb3, hi3⟩ := hstep T 2 s2 (Nat.lt_succ_self T) (by omega) hi2
    obtain ⟨s4, hb4, hi4⟩ := hstep T 3 s3 (Nat.lt_succ_self T) (by omega) hi3
    refine ⟨s4, ?_, ?_⟩
    · rw [List.range_succ T, List.foldlM_append, hsm]
      rw [show (List.range 4 : List Nat) = [0, 1, 2, 3] from rfl]
      simp only [List.foldlM_cons, List.foldlM_nil, Bind.bind, Except.bind,
        Pure.pure, hb1, hb2, hb3, hb4]
      rfl
    · have : T * 4 + 3 + 1 = 4 * (T + 1) := by omega
      rwa [this] at hi4

/-! ### Occurrence positions and prefix counts -/

theorem occ_succ (nodes : List Int) (P : Nat) (v : Int) :
    occ nodes (P + 1) v =
      occ nodes P v ++ (if nodes.getD P 0 = v then [P] else []) := by
  unfold occ
  rw [List.range_succ, List.filter_append]
  congr 1
  simp only [List.filter_singleton, List.getD_eq_getElem?_getD]
  by_cases h : nodes[P]?.getD 0 = v
  · simp [h]
  · simp [h]

theorem occ_sublist (nodes : List Int) {P Q : Nat} (h : P ≤ Q) (v : Int) :
    (occ nodes P v).Sublist (occ nodes Q v) :=
  List.Sublist.filter _ (List.range_sublist.mpr h)

theorem count_take_eq_occ_length (nodes : List Int) :
    ∀ P, P ≤ nodes.length → ∀ v, (nodes.take P).count v = (occ nodes P v).length := by
  intro P
  induction P with
  | zero => intro _ v; simp [occ]
  | succ P ih =>
    intro hP v
    have hlt : P < nodes.length := by omega
    have hgd : nodes.getD P 0 = nodes[P] := List.getD_eq_getElem _ _ hlt
    rw [occ_succ, List.length_append, List.take_succ,
      List.getElem?_eq_getElem hlt]
    rw [List.count_append, ← ih (by omega) v, hgd]
    by_cases h : nodes[P] = v
    · rw [if_pos h]
      simp [h]
    · rw [if_neg h]
      simp only [List.length_nil, List.count_singleton', Nat.add_zero]
      simp [List.count_eq_zero]
      omega

theorem cntSum_succ (nodes : List Int) (k : Nat) :
    cntSum nodes (k + 1) = cntSum nodes k + nodes.count ((k : Int) + 1) := by
  unfold cntSum
  rw [Finset.sum_range_succ]
  norm_cast

theorem cntSum_zero_of_pos {nodes : List Int} (hpos : ∀ t ∈ nodes, 1 ≤ t) :
    cntSum nodes 0 = 0 := by
  unfold cntSum
  rw [Finset.sum_range_one]
  rw [List.count_eq_zero]
  intro h
  exact absurd (hpos _ h) (by omega)

theorem cntSum_mono (nodes : List Int) {k k' : Nat} (h : k ≤ k') :
    cntSum nodes k ≤ cntSum nodes k' :=
  Finset.sum_le_sum_of_subset (Finset.range_subset.mpr (by omega))

theorem cntSum_total {nodes : List Int} (K : Nat)
    (hK : ∀ t ∈ nodes, 0 ≤ t ∧ t.toNat ≤ K) :
    cntSum nodes K = nodes.length := by
  unfold cntSum
  induction nodes with
  | nil => simp
  | cons x xs ih =>
    have hx := hK x (List.mem_cons_self _ _)
    have hsum : ∀ m ∈ Finset.range (K + 1),
        (x :: xs).count (m : Int) =
          xs.count (m : Int) + (if m = x.toNat then 1 else 0) := by
      intro m _
      rw [List.count_cons]
      congr 1
      by_cases h : (m : Int) = x
      · rw [if_pos (beq_iff_eq.mpr h.symm), if_pos (by omega)]
      · rw [if_neg (by simpa [beq_iff_eq] using fun hc => h hc.symm),
          if_neg (by omega)]
    rw [Finset.sum_congr rfl hsum, Finset.sum_add_distrib]
    rw [ih (fun t ht => hK t (List.mem_cons_of_mem _ ht))]
    rw [Finset.sum_ite_eq' (Finset.range (K + 1)) x.toNat (fun _ => 1)]
    simp only [Finset.mem_range]
    rw [if_pos (by omega)]
    simp

theorem getD_set_self {l : List Int} {i : Nat} (h : i < l.length) (x : Int) :
    (l.set i x).getD i 0 = x := by
  rw [List.getD_eq_getElem _ _ (by simpa using h)]
  exact List.getElem_set_self _

theorem getD_set_ne {l : List Int} {i k : Nat} (h : i ≠ k) (x : Int) :
    (l.set i x).getD k 0 = l.getD k 0 := by
  by_cases hk : k < l.length
  · rw [List.getD_eq_getElem _ _ (by simpa using hk),
      List.getD_eq_getElem _ _ hk]
    exact List.getElem_set_ne h _
  · rw [List.getD_eq_getElem?_getD, List.getD_eq_getElem?_getD,
      List.getElem?_eq_none (by simpa using hk),
      List.getElem?_eq_none (by omega)]

theorem count_take_succ (nodes : List Int) (P : Nat) (hP : P < nodes.length)
    (v : Int) :
    (nodes.take (P + 1)).count v =
      (nodes.take P).count v + (if nodes.getD P 0 = v then 1 else 0) := by
  rw [count_take_eq_occ_length _ _ (by omega), count_take_eq_occ_length _ _ (by omega),
    occ_succ, List.length_append]
  congr 1
  by_cases h : nodes.getD P 0 = v
  · rw [if_pos h, if_pos h]
    rfl
  · rw [if_neg h, if_neg h]
    rfl

/-- The counting pass of `elements_around_points`: afterwards, offset `k`
holds the number of occurrences of the tag `k` in the node list. -/
theorem counting_pass_spec (nodes : List Int) (szN : Nat)
    (hbound : ∀ t ∈ nodes, 0 ≤ t ∧ t.toNat < szN)
    (hlen4 : nodes.length % 4 = 0) :
    ∃ c, (List.range (nodes.length / 4)).foldlM (fun ind i =>
        (List.range 4).foldlM (fun ind j => do
          let idx ← vecAt nodes (Int.ofNat (i * 4 + j))
          vecIncAt ind idx) ind) (List.replicate szN (0 : Int)) = .ok c ∧
      c.length = szN ∧
      ∀ k < szN, c.getD k 0 = ((nodes.count ((k : Nat) : Int) : Nat) : Int) := by
  have hmain := nested4_foldlM_inv
    (fun i j ind => do
      let idx ← vecAt nodes (Int.ofNat (i * 4 + j))
      vecIncAt ind idx)
    (fun P ind => ind.length = szN ∧
      ∀ k < szN, ind.getD k 0 =
        (((nodes.take P).count ((k : Nat) : Int) : Nat) : Int))
    (nodes.length / 4) ?hstep (List.replicate szN 0) ?h0
  case h0 =>
    refine ⟨List.length_replicate _ _, fun k hk => ?_⟩
    simp [List.getD_eq_getElem?_getD, List.getElem?_replicate, hk]
  case hstep =>
    intro i j ind hi hj hinv
    obtain ⟨hlen, hval⟩ := hinv
    have hP : i * 4 + j < nodes.length := by omega
    set P := i * 4 + j with hPdef
    have hw := hbound (nodes.getD P 0)
      (by rw [List.getD_eq_getElem _ _ hP]; exact List.getElem_mem _)
    refine ⟨ind.set (nodes.getD P 0).toNat
      (ind.getD (nodes.getD P 0).toNat 0 + 1), ?_, ?_, ?_⟩
    · show (do
        let idx ← vecAt nodes (Int.ofNat P)
        vecIncAt ind idx) = _
      rw [show vecAt nodes (Int.ofNat P) = .ok (nodes.getD P 0) by
        unfold vecAt
        rw [if_pos ⟨Int.ofNat_nonneg P, by simpa using hP⟩]
        rfl]
      show vecIncAt ind (nodes.getD P 0) = _
      unfold vecIncAt vecAt
      rw [if_pos ⟨hw.1, by omega⟩]
      rfl
    · simpa using hlen
    · intro k hk
      by_cases hkw : k = (nodes.getD P 0).toNat
      · subst hkw
        rw [getD_set_self (by omega) _, hval _ hk,
          count_take_succ _ _ hP, if_pos (by omega)]
        push_cast
        ring
      · rw [getD_set_ne (fun hc => hkw hc.symm) _, hval _ hk,
          count_take_succ _ _ hP, if_neg (by omega)]
        simp
  obtain ⟨c, hc, hlen, hval⟩ := hmain
  refine ⟨c, hc, hlen, fun k hk => ?_⟩
  have h4 : 4 * (nodes.length / 4) = nodes.length := by omega
  have := hval k hk
  rwa [h4, List.take_length] at this

/-- The prefix-sum pass of `elements_around_points`: afterwards, offset
`k` holds the number of occurrences of the tags `0 … k`. -/
theorem prefix_pass_spec (nodes : List Int) (c : List Int) (szN : Nat)
    (hlen : c.length = szN)
    (hval : ∀ k < szN, c.getD k 0 = ((nodes.count ((k : Nat) : Int) : Nat) : Int)) :
    ∃ d, (List.range' 1 (c.length - 1)).foldlM (fun ind i => do
        let x ← vecAt ind (Int.ofNat i)
        let y ← vecAt ind (Int.ofNat (i - 1))
        pure (ind.set i (x + y))) c = .ok d ∧
      d.length = szN ∧
      ∀ k < szN, d.getD k 0 = ((cntSum nodes k : Nat) : Int) := by
  have main : ∀ n, n ≤ szN - 1 →
      ∃ d, (List.range' 1 n).foldlM (fun ind i => do
          let x ← vecAt ind (Int.ofNat i)
          let y ← vecAt ind (Int.ofNat (i - 1))
          pure (ind.set i (x + y))) c = .ok d ∧
        d.length = szN ∧
        (∀ k < szN, k ≤ n → d.getD k 0 = ((cntSum nodes k : Nat) : Int)) ∧
        (∀ k < szN, n < k → d.getD k 0 = ((nodes.count ((k : Nat) : Int) : Nat) : Int)) := by
    intro n
    induction n with
    | zero =>
      intro _
      refine ⟨c, rfl, hlen, fun k hk hk0 => ?_, fun k hk _ => hval k hk⟩
      have hk0' : k = 0 := by omega
      subst hk0'
      rw [hval 0 hk]
      unfold cntSum
      rw [Finset.sum_range_one]
    | succ n ih =>
      intro hn
      obtain ⟨d, hd, hdlen, hdlo, hdhi⟩ := ih (by omega)
      have hi1 : 1 + n < szN := by omega
      refine ⟨d.set (1 + n) (d.getD (1 + n) 0 + d.getD n 0), ?_, ?_, ?_, ?_⟩
      · rw [List.range'_1_concat, List.foldlM_append, hd]
        show (do
          let x ← vecAt d (Int.ofNat (1 + n))
          let y ← vecAt d (Int.ofNat (1 + n - 1))
          pure (d.set (1 + n) (x + y))) >>= _ = _
        rw [show vecAt d (Int.ofNat (1 + n)) = .ok (d.getD (1 + n) 0) by
          unfold vecAt
          rw [if_pos ⟨Int.ofNat_nonneg _, by simpa using (by omega : 1 + n < d.length)⟩]
          rfl]
        rw [show vecAt d (Int.ofNat (1 + n - 1)) = .ok (d.getD n 0) by
          unfold vecAt
          rw [if_pos ⟨Int.ofNat_nonneg _, by simpa using (by omega : 1 + n - 1 < d.length)⟩]
          simp]
        rfl
      · simpa using hdlen
      · intro k hk hkle
        by_cases hke : k = 1 + n
        · subst hke
          rw [getD_set_self (by omega) _,
            hdhi (1 + n) hk (by omega), hdlo n (by omega) (by omega)]
          have : 1 + n = n + 1 := by omega
          rw [this, cntSum_succ]
          push_cast
          ring
        · rw [getD_set_ne (fun hc => hke hc.symm) _]
          exact hdlo k hk (by omega)
      · intro k hk hkgt
        rw [getD_set_ne (by omega) _]
        exact hdhi k hk (by omega)
  obtain ⟨d, hd, hdlen, hdlo, -⟩ := main (szN - 1) (le_refl _)
  rw [hlen]
  exact ⟨d, hd, hdlen, fun k hk => hdlo k hk (by omega)⟩

theorem occ_length_le_count (nodes : List Int) (P : Nat) (hP : P ≤ nodes.length)
    (v : Int) : (occ nodes P v).length ≤ nodes.count v := by
  rw [show nodes.count v = (nodes.take nodes.length).count v by
      rw [List.take_length],
    count_take_eq_occ_length _ _ (le_refl _)]
  exact (occ_sublist nodes hP v).length_le

theorem occ_length_lt_count (nodes : List Int) (P : Nat)
    (hP : P < nodes.length) (v : Int) (hv : nodes.getD P 0 = v) :
    (occ nodes P v).length < nodes.count v := by
  have h1 := occ_length_le_count nodes (P + 1) (by omega) v
  rw [occ_succ, if_pos hv, List.length_append] at h1
  simpa using h1

/-- The fill pass of `elements_around_points`: writes every element index
into the slot range of each of its four nodes, advancing the per-node
cursor, so that the slot range of node `v` lists, in order of occurrence,
the element index of every occurrence of `v`. -/
theorem cntSum_pred (nodes : List Int) (v : Nat) (h1 : 1 ≤ v) :
    cntSum nodes v = cntSum nodes (v - 1) + nodes.count ((v : Nat) : Int) := by
  conv_lhs => rw [show v = (v - 1) + 1 from by omega]
  rw [cntSum_succ]
  congr 2
  omega

/-- The fill pass of `elements_around_points`: writes every element index
into the slot range of each of its four nodes, advancing the per-node
cursor, so that the slot range of node `v` lists, in order of occurrence,
the element index of every occurrence of `v`. -/
theorem fill_pass_spec (nodes : List Int) (MN : Nat) (d : List Int)
    (hbound : ∀ t ∈ nodes, 1 ≤ t ∧ t.toNat ≤ MN)
    (hlen4 : nodes.length % 4 = 0)
    (hdlen : d.length = MN + 1)
    (hdval : ∀ k < MN + 1, d.getD k 0 = ((cntSum nodes k : Nat) : Int)) :
    ∃ s, (List.range (nodes.length / 4)).foldlM (fun s i =>
        (List.range 4).foldlM (fun (s : List Int × List Int) j => do
          let node_pos ← vecAt s.2 (vecIx nodes (Int.ofNat (i * 4 + j)) - 1)
          let ind' ← vecIncAt s.2 (vecIx nodes (Int.ofNat (i * 4 + j)) - 1)
          pure (vecSetIx s.1 node_pos (Int.ofNat i), ind')) s)
        (List.replicate nodes.length (-1 : Int), d) = .ok s ∧
      s.1.length = nodes.length ∧ s.2.length = MN + 1 ∧
      (∀ k < MN + 1, s.2.getD k 0 =
        ((cntSum nodes k + nodes.count (((k : Nat) : Int) + 1) : Nat) : Int)) ∧
      (∀ v : Nat, 1 ≤ v → v ≤ MN → ∀ q, q < nodes.count ((v : Nat) : Int) →
        s.1.getD (cntSum nodes (v - 1) + q) 0 =
          Int.ofNat ((occ nodes nodes.length ((v : Nat) : Int)).getD q 0 / 4)) := by
  have htot : cntSum nodes MN = nodes.length :=
    cntSum_total MN (fun t ht => by have := hbound t ht; omega)
  have hcnt_le : ∀ v : Nat, 1 ≤ v → v ≤ MN →
      cntSum nodes (v - 1) + nodes.count ((v : Nat) : Int) ≤ nodes.length := by
    intro v h1 h2
    rw [← cntSum_pred nodes v h1, ← htot]
    exact cntSum_mono nodes h2
  have hmain := nested4_foldlM_inv
    (fun i j (s : List Int × List Int) => do
      let node_pos ← vecAt s.2 (vecIx nodes (Int.ofNat (i * 4 + j)) - 1)
      let ind' ← vecIncAt s.2 (vecIx nodes (Int.ofNat (i * 4 + j)) - 1)
      pure (vecSetIx s.1 node_pos (Int.ofNat i), ind'))
    (fun P s => s.1.length = nodes.length ∧ s.2.length = MN + 1 ∧
      (∀ k < MN + 1, s.2.getD k 0 =
        ((cntSum nodes k + (occ nodes P (((k : Nat) : Int) + 1)).length : Nat) : Int)) ∧
      (∀ v : Nat, 1 ≤ v → v ≤ MN →
        ∀ q, q < (occ nodes P ((v : Nat) : Int)).length →
        s.1.getD (cntSum nodes (v - 1) + q) 0 =
          Int.ofNat ((occ nodes P ((v : Nat) : Int)).getD q 0 / 4)))
    (nodes.length / 4) ?hstep (List.replicate nodes.length (-1 : Int), d) ?h0
  case h0 =>
    refine ⟨List.length_replicate _ _, hdlen, fun k hk => ?_, fun v h1 h2 q hq => ?_⟩
    · show d.getD k 0 = _
      rw [hdval k hk]
      simp [occ]
    · simp [occ] at hq
  case hstep =>
    intro i j s hi hj hinv
    obtain ⟨hlen1, hlen2, hcur, hcont⟩ := hinv
    have hP : i * 4 + j < nodes.length := by omega
    have hw := hbound (nodes.getD (i * 4 + j) 0)
      (by rw [List.getD_eq_getElem _ _ hP]; exact List.getElem_mem _)
    -- abbreviations (plain equations, no `set`)
    have hK : (nodes.getD (i * 4 + j) 0 - 1).toNat < MN + 1 := by omega
    have hvix : vecIx nodes (Int.ofNat (i * 4 + j)) = nodes.getD (i * 4 + j) 0 := by
      unfold vecIx
      split
      · rfl
      · next hc => exact absurd (Int.ofNat_nonneg (i * 4 + j)) hc
    -- the cursor value for the node of this entry
    have hnp : s.2.getD (nodes.getD (i * 4 + j) 0 - 1).toNat 0 =
        ((cntSum nodes (nodes.getD (i * 4 + j) 0 - 1).toNat +
          (occ nodes (i * 4 + j) (nodes.getD (i * 4 + j) 0)).length : Nat) : Int) := by
      have h0 := hcur (nodes.getD (i * 4 + j) 0 - 1).toNat hK
      rwa [show ((((nodes.getD (i * 4 + j) 0 - 1).toNat : Nat) : Int) + 1)
          = nodes.getD (i * 4 + j) 0 from by omega] at h0
    have hoccP_lt : (occ nodes (i * 4 + j) (nodes.getD (i * 4 + j) 0)).length <
        nodes.count (nodes.getD (i * 4 + j) 0) :=
      occ_length_lt_count nodes (i * 4 + j) hP _ rfl
    have hcnt_le' : cntSum nodes (nodes.getD (i * 4 + j) 0 - 1).toNat +
        nodes.count (nodes.getD (i * 4 + j) 0) ≤ nodes.length := by
      have h1 := hcnt_le (nodes.getD (i * 4 + j) 0).toNat (by omega) hw.2
      rwa [show (((nodes.getD (i * 4 + j) 0).toNat : Nat) : Int)
          = nodes.getD (i * 4 + j) 0 from by omega,
        show (nodes.getD (i * 4 + j) 0).toNat - 1
          = (nodes.getD (i * 4 + j) 0 - 1).toNat from by omega] at h1
    have hnp_lt : cntSum nodes (nodes.getD (i * 4 + j) 0 - 1).toNat +
        (occ nodes (i * 4 + j) (nodes.getD (i * 4 + j) 0)).length <
        nodes.length := by omega
    refine ⟨(s.1.set (cntSum nodes (nodes.getD (i * 4 + j) 0 - 1).toNat +
        (occ nodes (i * 4 + j) (nodes.getD (i * 4 + j) 0)).length) (Int.ofNat i),
      s.2.set (nodes.getD (i * 4 + j) 0 - 1).toNat
        (s.2.getD (nodes.getD (i * 4 + j) 0 - 1).toNat 0 + 1)), ?_, ?_, ?_, ?_, ?_⟩
    · -- the step body evaluates successfully to the new state
      show (do
        let node_pos ← vecAt s.2 (vecIx nodes (Int.ofNat (i * 4 + j)) - 1)
        let ind' ← vecIncAt s.2 (vecIx nodes (Int.ofNat (i * 4 + j)) - 1)
        pure (vecSetIx s.1 node_pos (Int.ofNat i), ind')) = _
      rw [hvix]
      rw [show vecAt s.2 (nodes.getD (i * 4 + j) 0 - 1)
          = .ok (s.2.getD (nodes.getD (i * 4 + j) 0 - 1).toNat 0) by
        unfold vecAt
        rw [if_pos ⟨by omega, by omega⟩]]
      show (vecIncAt s.2 (nodes.getD (i * 4 + j) 0 - 1) >>= _) = _
      rw [show vecIncAt s.2 (nodes.getD (i * 4 + j) 0 - 1)
          = .ok (s.2.set (nodes.getD (i * 4 + j) 0 - 1).toNat
            (s.2.getD (nodes.getD (i * 4 + j) 0 - 1).toNat 0 + 1)) by
        unfold vecIncAt vecAt
        rw [if_pos ⟨by omega, by omega⟩]
        rfl]
      show Except.ok (vecSetIx s.1 (s.2.getD (nodes.getD (i * 4 + j) 0 - 1).toNat 0)
        (Int.ofNat i), _) = _
      rw [show vecSetIx s.1 (s.2.getD (nodes.getD (i * 4 + j) 0 - 1).toNat 0)
          (Int.ofNat i) = s.1.set (cntSum nodes (nodes.getD (i * 4 + j) 0 - 1).toNat +
            (occ nodes (i * 4 + j) (nodes.getD (i * 4 + j) 0)).length) (Int.ofNat i) by
        unfold vecSetIx
        rw [if_pos (by rw [hnp]; omega), hnp]
        congr 1]
    · simpa using hlen1
    · simpa using hlen2
    · -- cursor invariant after processing this entry
      intro k hk
      show (s.2.set (nodes.getD (i * 4 + j) 0 - 1).toNat _).getD k 0 = _
      by_cases hke : k = (nodes.getD (i * 4 + j) 0 - 1).toNat
      · subst hke
        rw [getD_set_self (by omega) _, hnp]
        rw [show ((((nodes.getD (i * 4 + j) 0 - 1).toNat : Nat) : Int) + 1)
            = nodes.getD (i * 4 + j) 0 from by omega]
        rw [occ_succ, if_pos rfl, List.length_append, List.length_singleton]
        push_cast
        omega
      · rw [getD_set_ne (fun hc => hke hc.symm) _, hcur k hk]
        rw [occ_succ, if_neg (by omega), List.append_nil]
    · -- content invariant after processing this entry
      intro v h1 h2 q hq
      show (s.1.set (cntSum nodes (nodes.getD (i * 4 + j) 0 - 1).toNat +
        (occ nodes (i * 4 + j) (nodes.getD (i * 4 + j) 0)).length) (Int.ofNat i)).getD
          (cntSum nodes (v - 1) + q) 0 = _
      by_cases hvw : ((v : Nat) : Int) = nodes.getD (i * 4 + j) 0
      · -- this entry's node: old slots unchanged, one new slot written
        have hv1 : v - 1 = (nodes.getD (i * 4 + j) 0 - 1).toNat := by omega
        rw [occ_succ, if_pos hvw.symm] at hq ⊢
        rw [List.length_append, List.length_singleton] at hq
        by_cases hqold : q < (occ nodes (i * 4 + j) ((v : Nat) : Int)).length
        · -- old slot: left of the cursor, untouched by the write
          rw [List.getD_append _ _ _ _ hqold]
          rw [getD_set_ne (by rw [← hv1, ← hvw]; omega) _]
          exact hcont v h1 h2 q hqold
        · -- the newly written slot, at the cursor position
          have hqeq : q = (occ nodes (i * 4 + j) ((v : Nat) : Int)).length := by omega
          subst hqeq
          rw [hv1, hvw]
          rw [getD_set_self (by omega) _]
          rw [List.getD_eq_getElem _ _
            (by rw [List.length_append, List.length_singleton]; omega)]
          rw [List.getElem_concat_length _ _ _ rfl]
          congr 1
          omega
      · -- a different node: its occurrence list and slots are untouched
        rw [occ_succ, if_neg (fun hc => hvw hc.symm)] at hq ⊢
        rw [List.append_nil] at hq ⊢
        have hle := occ_length_le_count nodes (i * 4 + j) (by omega) ((v : Nat) : Int)
        have hsum := cntSum_pred nodes v h1
        have hdisj : cntSum nodes (v - 1) + q ≠
            cntSum nodes (nodes.getD (i * 4 + j) 0 - 1).toNat +
              (occ nodes (i * 4 + j) (nodes.getD (i * 4 + j) 0)).length := by
          have hwv : v ≠ (nodes.getD (i * 4 + j) 0).toNat := by omega
          rcases Nat.lt_or_ge v (nodes.getD (i * 4 + j) 0).toNat with hlt | hgt
          · -- v < w, so v's whole slot range lies strictly left of the cursor
            have hm : cntSum nodes v ≤
                cntSum nodes (nodes.getD (i * 4 + j) 0 - 1).toNat :=
              cntSum_mono nodes (by omega)
            omega
          · -- v > w, so v's slot range lies strictly right of the cursor
            have hv' : (nodes.getD (i * 4 + j) 0).toNat + 1 ≤ v := by omega
            have hm : cntSum nodes (nodes.getD (i * 4 + j) 0).toNat ≤
                cntSum nodes (v - 1) :=
              cntSum_mono nodes (by omega)
            have hsw := cntSum_pred nodes (nodes.getD (i * 4 + j) 0).toNat (by omega)
            rw [show (((nodes.getD (i * 4 + j) 0).toNat : Nat) : Int)
                = nodes.getD (i * 4 + j) 0 from by omega,
              show (nodes.getD (i * 4 + j) 0).toNat - 1
                = (nodes.getD (i * 4 + j) 0 - 1).toNat from by omega] at hsw
            omega
        rw [getD_set_ne (fun hc => hdisj hc.symm) _]
        exact hcont v h1 h2 q hq
  -- conclude: at the end of the fold the whole list has been processed
  obtain ⟨s, hs, hfin⟩ := hmain
  have h4 : 4 * (nodes.length / 4) = nodes.length := by omega
  rw [h4] at hfin
  obtain ⟨hl1, hl2, hcur, hcont⟩ := hfin
  refine ⟨s, hs, hl1, hl2, fun k hk => ?_, fun v h1 h2 q hq => ?_⟩
  · rw [hcur k hk]
    congr 2
    rw [← count_take_eq_occ_length nodes nodes.length (le_refl _), List.take_length]
  · have hocc : (occ nodes nodes.length ((v : Nat) : Int)).length =
        nodes.count ((v : Nat) : Int) := by
      rw [← count_take_eq_occ_length nodes nodes.length (le_refl _), List.take_length]
    exact hcont v h1 h2 q (by omega)

/-- The final right-shift of `elements_around_points`: entry `k` receives
the old entry `k - 1`, for `k` from the top down to 1. -/
theorem shift_pass_spec (e : List Int) :
    ∀ n, n ≤ e.length - 1 →
    ((List.range n).foldl (fun ind k =>
        vecSetIx ind (Int.ofNat (e.length - 1 - k))
          (vecIx ind (Int.ofNat (e.length - 1 - k - 1)))) e).length = e.length ∧
    (∀ m, m < e.length - n →
      ((List.range n).foldl (fun ind k =>
        vecSetIx ind (Int.ofNat (e.length - 1 - k))
          (vecIx ind (Int.ofNat (e.length - 1 - k - 1)))) e).getD m 0 = e.getD m 0) ∧
    (∀ m < e.length, e.length - n ≤ m →
      ((List.range n).foldl (fun ind k =>
        vecSetIx ind (Int.ofNat (e.length - 1 - k))
          (vecIx ind (Int.ofNat (e.length - 1 - k - 1)))) e).getD m 0 =
        e.getD (m - 1) 0) := by
  intro n
  induction n with
  | zero => exact fun _ => ⟨rfl, fun m _ => rfl, fun m hm hm' => by omega⟩
  | succ n ih =>
    intro hn
    obtain ⟨hlen, hlo, hhi⟩ := ih (by omega)
    rw [List.range_succ, List.foldl_append, List.foldl_cons, List.foldl_nil]
    have hwrite : (Int.ofNat (e.length - 1 - n)).toNat = e.length - 1 - n := rfl
    have hsetix : ∀ (l : List Int) (a : Nat) (x : Int),
        vecSetIx l (Int.ofNat a) x = l.set a x := by
      intro l a x
      unfold vecSetIx
      split
      · rfl
      · next hc => exact absurd (Int.ofNat_nonneg a) hc
    have hgetix : ∀ (l : List Int) (a : Nat), vecIx l (Int.ofNat a) = l.getD a 0 := by
      intro l a
      unfold vecIx
      split
      · rfl
      · next hc => exact absurd (Int.ofNat_nonneg a) hc
    rw [hsetix, hgetix]
    refine ⟨by simpa using hlen, fun m hm => ?_, fun m hm hm' => ?_⟩
    · rw [getD_set_ne (by omega) _]
      exact hlo m (by omega)
    · by_cases hme : m = e.length - 1 - n
      · subst hme
        rw [getD_set_self (by omega) _]
        rw [hlo _ (by omega)]
      · rw [getD_set_ne (fun hc => hme hc.symm) _]
        exact hhi m hm (by omega)

/-- Full specification of `elements_around_points` on a well-formed input:
node tags all lie in `1..MN` with `MN` attained; the call succeeds, the
offset table has length `MN + 1` and holds the prefix counts, and the slot
range of node `v` lists the element index of every occurrence of `v`, in
order of occurrence. -/
theorem eap_spec (nodes : List Int) (MN : Nat)
    (hlen4 : nodes.length % 4 = 0)
    (hbound : ∀ t ∈ nodes, 1 ≤ t ∧ t.toNat ≤ MN)
    (hmem : ((MN : Nat) : Int) ∈ nodes) :
    ∃ r, elements_around_points nodes = .ok r ∧
      r.list_indices.length = MN + 1 ∧
      r.elt_list.length = nodes.length ∧
      (∀ k < MN + 1, r.list_indices.getD k 0 = ((cntSum nodes k : Nat) : Int)) ∧
      (∀ v : Nat, 1 ≤ v → v ≤ MN → ∀ q, q < nodes.count ((v : Nat) : Int) →
        r.elt_list.getD (cntSum nodes (v - 1) + q) 0 =
          Int.ofNat ((occ nodes nodes.length ((v : Nat) : Int)).getD q 0 / 4)) := by
  have hMN1 : 1 ≤ MN := by
    have := hbound _ hmem
    omega
  obtain ⟨n0, rest, rfl⟩ : ∃ a l, nodes = a :: l := by
    cases nodes with
    | nil => cases hmem
    | cons a l => exact ⟨a, l, rfl⟩
  have htot : cntSum (n0 :: rest) MN = (n0 :: rest).length :=
    cntSum_total MN (fun t ht => by have := hbound t ht; omega)
  have hfold : rest.foldl max n0 = ((MN : Nat) : Int) := by
    apply le_antisymm
    · have hb := hbound _ (foldl_max_mem rest n0)
      omega
    · exact le_foldl_max rest n0 _ hmem
  unfold elements_around_points
  rw [if_neg (not_not_intro hlen4)]
  simp only []
  rw [hfold]
  rw [if_neg (by omega : ¬(((MN : Nat) : Int) + 1 < 0))]
  rw [show (((MN : Nat) : Int) + 1).toNat = MN + 1 from by omega]
  obtain ⟨c, hc, hclen, hcval⟩ := counting_pass_spec (n0 :: rest) (MN + 1)
    (fun t ht => by have := hbound t ht; omega) hlen4
  rw [hc, ok_bind]
  obtain ⟨d, hd, hdlen, hdval⟩ := prefix_pass_spec (n0 :: rest) c (MN + 1) hclen hcval
  rw [hd, ok_bind]
  have hdlast : d.getLast? = some (((n0 :: rest).length : Nat) : Int) := by
    rw [List.getLast?_eq_getElem?, List.getElem?_eq_getElem (by omega)]
    rw [← List.getD_eq_getElem d 0 (by omega)]
    rw [show d.length - 1 = MN from by omega]
    rw [hdval MN (by omega), htot]
  rw [hdlast]
  simp only []
  rw [if_neg (by omega : ¬((((n0 :: rest).length : Nat) : Int) < 0))]
  rw [show ((((n0 :: rest).length : Nat) : Int)).toNat = (n0 :: rest).length
    from by omega]
  obtain ⟨sfin, hs, hl1, hl2, hcur, hcont⟩ :=
    fill_pass_spec (n0 :: rest) MN d hbound hlen4 hdlen hdval
  rw [hs, ok_bind]
  refine ⟨_, rfl, ?_, ?_, ?_, ?_⟩
  · -- offsets length
    show (vecSetIx _ 0 0).length = MN + 1
    rw [vecSetIx_eq_set _ 0 (le_refl 0), List.length_set]
    exact (shift_pass_spec sfin.2 (sfin.2.length - 1) (by omega)).1.trans hl2
  · exact hl1
  · -- offsets hold the prefix counts
    intro k hk
    show (vecSetIx _ 0 0).getD k 0 = _
    rw [vecSetIx_eq_set _ 0 (le_refl 0), show ((0 : Int)).toNat = 0 from rfl]
    obtain ⟨hshlen, hshlo, hshhi⟩ := shift_pass_spec sfin.2 (sfin.2.length - 1) (by omega)
    rcases Nat.eq_zero_or_pos k with rfl | hk1
    · rw [getD_set_self (by rw [hshlen]; omega) 0]
      rw [cntSum_zero_of_pos (fun t ht => (hbound t ht).1)]
      rfl
    · rw [getD_set_ne (by omega) 0]
      rw [hshhi k (by omega) (by omega)]
      rw [hcur (k - 1) (by omega)]
      rw [show ((((k - 1 : Nat) : Nat) : Int) + 1) = ((k : Nat) : Int) from by omega]
      rw [cntSum_pred (n0 :: rest) k hk1]
  · -- slice contents
    intro v h1 h2 q hq
    exact hcont v h1 h2 q hq

/-! ### From CSR slices to per-node incidence lists -/

theorem flatten_length (elements : List Tetrahedron) :
    (flatten_tetrahedron_vector elements).length = 4 * elements.length := by
  induction elements with
  | nil => rfl
  | cons e es ih =>
    simp only [flatten_tetrahedron_vector, List.flatMap_cons] at ih ⊢
    simp [ih]
    omega

theorem mem_flatten {elements : List Tetrahedron} {x : Int} :
    x ∈ flatten_tetrahedron_vector elements ↔
      ∃ t ∈ elements, x ∈ t.nodes := by
  simp [flatten_tetrahedron_vector, List.mem_flatMap, Tetrahedron.nodes]

theorem flatten_append (es : List Tetrahedron) (e : Tetrahedron) :
    flatten_tetrahedron_vector (es ++ [e]) =
      flatten_tetrahedron_vector es ++ [e.a, e.b, e.c, e.d] := by
  simp [flatten_tetrahedron_vector]

theorem occ_append_block (nodes blk : List Int) (v : Int) :
    occ (nodes ++ blk) (nodes ++ blk).length v =
      occ nodes nodes.length v ++
        (occ blk blk.length v).map (nodes.length + ·) := by
  unfold occ
  rw [List.length_append, List.range_add, List.filter_append, List.filter_map]
  congr 1
  · apply List.filter_congr
    intro p hp
    simp only [List.mem_range] at hp
    rw [List.getD_append _ _ _ _ hp]
  · congr 1
    apply List.filter_congr
    intro q hq
    simp only [List.mem_range] at hq
    simp only [Function.comp_apply]
    rw [List.getD_append_right _ _ _ _ (by omega),
      show nodes.length + q - nodes.length = q from by omega]

theorem occ_block4_cases (e : Tetrahedron) (hv : e.valid) (v : Int) :
    (occ [e.a, e.b, e.c, e.d] 4 v = [] ∧ v ∉ e.nodes) ∨
    (∃ p, p < 4 ∧ occ [e.a, e.b, e.c, e.d] 4 v = [p] ∧ v ∈ e.nodes) := by
  obtain ⟨h0, h1, h2, h3⟩ := hv
  unfold occ Tetrahedron.nodes
  rw [show List.range 4 = [0, 1, 2, 3] from rfl]
  by_cases ha : e.a = v
  · refine Or.inr ⟨0, by omega, ?_, by simp [ha]⟩
    simp [List.filter_cons, List.getD_cons_zero, List.getD_cons_succ, ha,
      show ¬(e.b = v) from by omega, show ¬(e.c = v) from by omega,
      show ¬(e.d = v) from by omega]
  · by_cases hb : e.b = v
    · refine Or.inr ⟨1, by omega, ?_, by simp [hb]⟩
      simp [List.filter_cons, List.getD_cons_zero, List.getD_cons_succ, ha, hb,
        show ¬(e.c = v) from by omega, show ¬(e.d = v) from by omega]
    · by_cases hc : e.c = v
      · refine Or.inr ⟨2, by omega, ?_, by simp [hc]⟩
        simp [List.filter_cons, List.getD_cons_zero, List.getD_cons_succ, ha,
          hb, hc, show ¬(e.d = v) from by omega]
      · by_cases hd : e.d = v
        · refine Or.inr ⟨3, by omega, ?_, by simp [hd]⟩
          simp [List.filter_cons, List.getD_cons_zero, List.getD_cons_succ,
            ha, hb, hc, hd]
        · refine Or.inl ⟨?_, by simp [List.mem_cons]; omega⟩
          simp [List.filter_cons, List.getD_cons_zero, List.getD_cons_succ,
            ha, hb, hc, hd]

/-- The occurrence positions of a tag in the flattened node list, divided
by four, are exactly the indices of the elements containing the tag (each
element's four tags being pairwise distinct). -/
theorem occ_div4_eq_incident (elements : List Tetrahedron)
    (hvalid : ∀ t ∈ elements, t.valid) (v : Int) :
    (occ (flatten_tetrahedron_vector elements)
        (flatten_tetrahedron_vector elements).length v).map (fun p => p / 4) =
      (List.range elements.length).filter
        (fun i => decide (v ∈ (elements.getD i default).nodes)) := by
  induction elements using List.reverseRecOn with
  | nil => rfl
  | append_singleton es e ih =>
    have hvs : ∀ t ∈ es, t.valid := fun t ht => hvalid t (by simp [ht])
    have hv := hvalid e (by simp)
    rw [flatten_append, occ_append_block, List.map_append, ih hvs,
      List.map_map]
    rw [List.length_append, List.length_singleton, List.range_add,
      List.filter_append]
    congr 1
    · apply List.filter_congr
      intro i hi
      simp only [List.mem_range] at hi
      rw [List.getD_append _ _ _ _ hi]
    · have hT : (flatten_tetrahedron_vector es).length = 4 * es.length :=
        flatten_length es
      rw [show (List.range 1).map (es.length + ·) = [es.length] from rfl]
      rw [show ([e.a, e.b, e.c, e.d] : List Int).length = 4 from rfl]
      have hgd : (es ++ [e]).getD es.length default = e := by
        rw [List.getD_append_right _ _ _ _ (le_refl _), Nat.sub_self]
        rfl
      rcases occ_block4_cases e hv v with ⟨hocc, hmem⟩ | ⟨p, hp, hocc, hmem⟩
      · rw [hocc]
        simp [hgd, hmem]
      · rw [hocc]
        simp only [List.map_cons, List.map_nil, Function.comp_apply]
        rw [List.filter_singleton]
        rw [hgd, show decide (v ∈ e.nodes) = true from decide_eq_true hmem]
        simp only [cond_true]
        congr 1
        omega

/-- Master characterisation of the CSR adjacency index on a list of valid
tetrahedra whose node tags are contiguous from 1 to `M`: the construction
succeeds, the offset table has length `M + 1` and starts at 0, and the
slice of node `n` is exactly the increasing list of the indices of the
elements containing `n`. -/
theorem csr_spec (elements : List Tetrahedron) (M : Nat)
    (hvalid : ∀ t ∈ elements, t.valid)
    (hbound : ∀ t ∈ elements, ∀ x ∈ t.nodes, 1 ≤ x ∧ x.toNat ≤ M)
    (hcover : ∀ n : Nat, 1 ≤ n → n ≤ M →
      ∃ t ∈ elements, ((n : Nat) : Int) ∈ t.nodes)
    (hM1 : 1 ≤ M) :
    ∃ r, elements_around_points (flatten_tetrahedron_vector elements) = .ok r ∧
      r.list_indices.length = M + 1 ∧
      r.list_indices.getD 0 0 = 0 ∧
      r.elt_list.length = 4 * elements.length ∧
      (∀ n : Nat, 1 ≤ n → n ≤ M →
        csrSlice r n = incident elements ((n : Nat) : Int)) := by
  have hbn : ∀ t ∈ flatten_tetrahedron_vector elements, 1 ≤ t ∧ t.toNat ≤ M := by
    intro t ht
    obtain ⟨e, he, hte⟩ := mem_flatten.mp ht
    exact hbound e he t hte
  have hlen4 : (flatten_tetrahedron_vector elements).length % 4 = 0 := by
    rw [flatten_length]
    omega
  have hmem : ((M : Nat) : Int) ∈ flatten_tetrahedron_vector elements := by
    obtain ⟨t, ht, htm⟩ := hcover M hM1 (le_refl _)
    exact mem_flatten.mpr ⟨t, ht, htm⟩
  obtain ⟨r, hr, hilen, hellen, hival, hcval⟩ :=
    eap_spec (flatten_tetrahedron_vector elements) M hlen4 hbn hmem
  have htot : cntSum (flatten_tetrahedron_vector elements) M =
      (flatten_tetrahedron_vector elements).length :=
    cntSum_total M (fun t ht => by have := hbn t ht; omega)
  have hpos : ∀ t ∈ flatten_tetrahedron_vector elements, 1 ≤ t :=
    fun t ht => (hbn t ht).1
  refine ⟨r, hr, hilen, ?_, by rw [hellen, flatten_length], fun n h1 h2 => ?_⟩
  · rw [hival 0 (by omega), cntSum_zero_of_pos hpos]
    rfl
  · -- the slice of node n equals the incidence list of n
    have hsum := cntSum_pred (flatten_tetrahedron_vector elements) n h1
    have hmono : cntSum (flatten_tetrahedron_vector elements) n ≤
        (flatten_tetrahedron_vector elements).length := by
      rw [← htot]
      exact cntSum_mono _ h2
    have hocc := occ_div4_eq_incident elements hvalid ((n : Nat) : Int)
    have hocclen : (occ (flatten_tetrahedron_vector elements)
        (flatten_tetrahedron_vector elements).length ((n : Nat) : Int)).length =
        (flatten_tetrahedron_vector elements).count ((n : Nat) : Int) := by
      rw [← count_take_eq_occ_length _ _ (le_refl _), List.take_length]
    have hoffn : (r.list_indices.getD n 0).toNat =
        cntSum (flatten_tetrahedron_vector elements) n := by
      rw [hival n (by omega)]
      omega
    have hoffn1 : (r.list_indices.getD (n - 1) 0).toNat =
        cntSum (flatten_tetrahedron_vector elements) (n - 1) := by
      rw [hival (n - 1) (by omega)]
      omega
    unfold csrSlice incident
    rw [hoffn, hoffn1]
    apply List.ext_getElem
    · -- both sides have length `count n`
      rw [List.length_take, List.length_drop, List.length_map,
        ← hocc, List.length_map, hocclen, hellen]
      omega
    · intro q hq1 hq2
      have hqcount : q < (flatten_tetrahedron_vector elements).count
          ((n : Nat) : Int) := by
        rw [List.length_take, List.length_drop, hellen] at hq1
        omega
      have hpos_lt : cntSum (flatten_tetrahedron_vector elements) (n - 1) + q <
          r.elt_list.length := by
        rw [hellen]
        omega
      rw [List.getElem_take, List.getElem_drop]
      have hval := hcval n h1 h2 q hqcount
      rw [List.getD_eq_getElem _ _ hpos_lt] at hval
      rw [hval]
      rw [List.getElem_map]
      have hqocc : q < (occ (flatten_tetrahedron_vector elements)
          (flatten_tetrahedron_vector elements).length ((n : Nat) : Int)).length := by
        omega
      have hqmap : q < ((occ (flatten_tetrahedron_vector elements)
          (flatten_tetrahedron_vector elements).length
            ((n : Nat) : Int)).map (fun p => p / 4)).length := by
        rw [List.length_map]
        omega
      have hpointwise := List.getElem_of_eq hocc hqmap
      congr 1
      rw [← hpointwise, List.getElem_map, List.getD_eq_getElem _ _ hqocc]

/-- C6: on a list of valid tetrahedra with node tags contiguous from 1 to
`M`, the adjacency index construction returns a CSR pair `(elt_list,
offsets)` with `offsets` of length `M + 1`, `offsets[0] = 0`, and, for
every node `n` in `1..M`, the slice `elt_list[offsets[n-1] .. offsets[n]]`
contains exactly the indices of the elements that contain node `n`, each
appearing once (the slice is the increasing incidence list, so membership
is equivalence and there are no duplicates). -/
theorem claim_C6 (elements : List Tetrahedron) (M : Nat)
    (hvalid : ∀ t ∈ elements, t.valid)
    (hbound : ∀ t ∈ elements, ∀ x ∈ t.nodes, 1 ≤ x ∧ x.toNat ≤ M)
    (hcover : ∀ n : Nat, 1 ≤ n → n ≤ M →
      ∃ t ∈ elements, ((n : Nat) : Int) ∈ t.nodes)
    (hM1 : 1 ≤ M) :
    ∃ r, elements_around_points (flatten_tetrahedron_vector elements) = .ok r ∧
      r.list_indices.length = M + 1 ∧
      r.list_indices.getD 0 0 = 0 ∧
      ∀ n : Nat, 1 ≤ n → n ≤ M →
        csrSlice r n = incident elements ((n : Nat) : Int) ∧
        (csrSlice r n).Nodup ∧
        ∀ i : Nat, Int.ofNat i ∈ csrSlice r n ↔
          i < elements.length ∧ ((n : Nat) : Int) ∈ (elements.getD i default).nodes := by
  obtain ⟨r, hr, hlen, h0, -, hslice⟩ := csr_spec elements M hvalid hbound hcover hM1
  refine ⟨r, hr, hlen, h0, fun n h1 h2 => ⟨hslice n h1 h2, ?_, ?_⟩⟩
  · rw [hslice n h1 h2]
    unfold incident
    exact ((List.nodup_range _).filter _).map (fun a b h => Int.ofNat.inj h)
  · intro i
    rw [hslice n h1 h2]
    unfold incident
    constructor
    · intro hi
      obtain ⟨a, ha, hai⟩ := List.mem_map.mp hi
      obtain ⟨har, hap⟩ := List.mem_filter.mp ha
      cases Int.ofNat.inj hai
      exact ⟨List.mem_range.mp har, of_decide_eq_true hap⟩
    · intro ⟨hi1, hi2⟩
      exact List.mem_map.mpr ⟨i,
        List.mem_filter.mpr ⟨List.mem_range.mpr hi1, decide_eq_true hi2⟩, rfl⟩

theorem claim_C6_witness :
    ∃ r, elements_around_points
        (flatten_tetrahedron_vector
          [⟨1, 2, 3, 4⟩, ⟨2, 3, 4, 5⟩]) = .ok r ∧
      r.list_indices.length = 5 + 1 ∧
      r.list_indices.getD 0 0 = 0 ∧
      ∀ n : Nat, 1 ≤ n → n ≤ 5 →
        csrSlice r n = incident [⟨1, 2, 3, 4⟩, ⟨2, 3, 4, 5⟩] ((n : Nat) : Int) ∧
        (csrSlice r n).Nodup ∧
        ∀ i : Nat, Int.ofNat i ∈ csrSlice r n ↔
          i < (([⟨1, 2, 3, 4⟩, ⟨2, 3, 4, 5⟩] : List Tetrahedron)).length ∧
            ((n : Nat) : Int) ∈
              (([⟨1, 2, 3, 4⟩, ⟨2, 3, 4, 5⟩] : List Tetrahedron).getD i
                default).nodes :=
  claim_C6 [⟨1, 2, 3, 4⟩, ⟨2, 3, 4, 5⟩] 5
    (by intro t ht; fin_cases ht <;> exact ⟨by decide, by decide, by decide, by decide⟩)
    (by intro t ht; fin_cases ht <;> (intro x hx; fin_cases hx <;> exact ⟨by decide, by decide⟩))
    (by intro n h1 h2; interval_cases n <;> decide)
    (by omega)

/-- C10: in the adjacency index built from a list of valid tetrahedra with
contiguous node tags `1..M`, the per-node incidence list of every node is
strictly increasing (the elements are written in increasing element-index
order by the fill pass). -/
theorem claim_C10 (elements : List Tetrahedron) (M : Nat)
    (hvalid : ∀ t ∈ elements, t.valid)
    (hbound : ∀ t ∈ elements, ∀ x ∈ t.nodes, 1 ≤ x ∧ x.toNat ≤ M)
    (hcover : ∀ n : Nat, 1 ≤ n → n ≤ M →
      ∃ t ∈ elements, ((n : Nat) : Int) ∈ t.nodes)
    (hM1 : 1 ≤ M) :
    ∃ r, elements_around_points (flatten_tetrahedron_vector elements) = .ok r ∧
      ∀ n : Nat, 1 ≤ n → n ≤ M → (csrSlice r n).Pairwise (· < ·) := by
  obtain ⟨r, hr, -, -, -, hslice⟩ := csr_spec elements M hvalid hbound hcover hM1
  refine ⟨r, hr, fun n h1 h2 => ?_⟩
  rw [hslice n h1 h2]
  unfold incident
  exact ((List.pairwise_lt_range _).filter _).map _
    (fun a b h => Int.ofNat_lt.mpr h)

theorem claim_C10_witness :
    ∃ r, elements_around_points
        (flatten_tetrahedron_vector
          [⟨1, 2, 3, 4⟩, ⟨2, 3, 4, 5⟩]) = .ok r ∧
      ∀ n : Nat, 1 ≤ n → n ≤ 5 → (csrSlice r n).Pairwise (· < ·) :=
  claim_C10 [⟨1, 2, 3, 4⟩, ⟨2, 3, 4, 5⟩] 5
    (by intro t ht; fin_cases ht <;> exact ⟨by decide, by decide, by decide, by decide⟩)
    (by intro t ht; fin_cases ht <;> (intro x hx; fin_cases hx <;> exact ⟨by decide, by decide⟩))
    (by intro n h1 h2; interval_cases n <;> decide)
    (by omega)

/-! ### C1 — equivalence of the fast and the naive neighbour builders -/

theorem vecSetIx_length (l : List Int) (i x : Int) :
    (vecSetIx l i x).length = l.length := by
  unfold vecSetIx
  split <;> simp

theorem flatten_getD (elements : List Tetrahedron) :
    ∀ i, i < elements.length → ∀ k, k < 4 →
    (flatten_tetrahedron_vector elements).getD (i * 4 + k) 0 =
      (elements.getD i default).nodes.getD k 0 := by
  induction elements with
  | nil => intro i hi; exact absurd hi (by simp)
  | cons e es ih =>
    intro i hi k hk
    cases i with
    | zero =>
      show ((([e.a, e.b, e.c, e.d] : List Int)) ++
        flatten_tetrahedron_vector es).getD (0 * 4 + k) 0 = _
      rw [List.getD_append _ _ _ _ (by simp; omega)]
      rw [show 0 * 4 + k = k from by omega]
      rfl
    | succ i =>
      show ((([e.a, e.b, e.c, e.d] : List Int)) ++
        flatten_tetrahedron_vector es).getD ((i + 1) * 4 + k) 0 = _
      rw [List.getD_append_right _ _ _ _ (by simp; omega)]
      rw [show (i + 1) * 4 + k - ([e.a, e.b, e.c, e.d] : List Int).length
          = i * 4 + k from by simp; omega]
      exact ih i (by simpa using hi) k hk

theorem valid_nodes_getD (t : Tetrahedron) (hv : t.valid) :
    ∀ k < 4, t.nodes.getD k 0 ∈ t.nodes := by
  intro k hk
  interval_cases k <;> simp [Tetrahedron.nodes]

/-- `tn_face` builds exactly `faces()[j]` of element `i` (both derive the
face by omitting the `j`-th sorted node). -/
theorem tn_face_eq (elements : List Tetrahedron) (i j : Nat)
    (hi : i < elements.length) (hj : j < 4) :
    tn_face (flatten_tetrahedron_vector elements) i j =
      (elements.getD i default).faces.getD j [] := by
  have hvix : ∀ k, k < 4 → vecIx (flatten_tetrahedron_vector elements)
      (Int.ofNat (i * 4 + k)) = (elements.getD i default).nodes.getD k 0 := by
    intro k hk
    rw [vecIx_eq_getD (flatten_tetrahedron_vector elements)
        (Int.ofNat (i * 4 + k)) (by exact Int.ofNat_nonneg _),
      show (Int.ofNat (i * 4 + k)).toNat = i * 4 + k from rfl]
    exact flatten_getD elements i hi k hk
  unfold tn_face
  interval_cases j <;>
    simp only [show ((List.range 4).filter (· ≠ 0)) = [1, 2, 3] from rfl,
      show ((List.range 4).filter (· ≠ 1)) = [0, 2, 3] from rfl,
      show ((List.range 4).filter (· ≠ 2)) = [0, 1, 3] from rfl,
      show ((List.range 4).filter (· ≠ 3)) = [0, 1, 2] from rfl,
      List.map_cons, List.map_nil] <;>
    rw [hvix _ (by omega), hvix _ (by omega), hvix _ (by omega)] <;>
    simp [Tetrahedron.nodes, Tetrahedron.faces]

theorem valid_face_sorted (t : Tetrahedron) (hv : t.valid) (f : Nat)
    (hf : f < 4) :
    t.faces.getD f [] = [(t.faces.getD f []).getD 0 0,
        (t.faces.getD f []).getD 1 0, (t.faces.getD f []).getD 2 0] ∧
    (t.faces.getD f []).getD 0 0 < (t.faces.getD f []).getD 1 0 ∧
    (t.faces.getD f []).getD 1 0 < (t.faces.getD f []).getD 2 0 ∧
    (∀ x ∈ t.faces.getD f [], x ∈ t.nodes) := by
  obtain ⟨h0, h1, h2, h3⟩ := hv
  interval_cases f <;>
    exact ⟨rfl, by simp [Tetrahedron.faces]; omega,
      by simp [Tetrahedron.faces]; omega,
      by intro x hx; simp only [Tetrahedron.faces, List.getD_cons_zero,
        List.getD_cons_succ] at hx; simp [Tetrahedron.nodes] at hx ⊢; tauto⟩

theorem intOfNat_cast (n : Nat) : Int.ofNat n = (n : Int) := rfl

theorem vecIx_flatten (elements : List Tetrahedron) (i k : Nat)
    (hi : i < elements.length) (hk : k < 4) :
    vecIx (flatten_tetrahedron_vector elements) (Int.ofNat (i * 4 + k)) =
      (elements.getD i default).nodes.getD k 0 := by
  rw [vecIx_eq_getD (flatten_tetrahedron_vector elements)
      (Int.ofNat (i * 4 + k)) (by exact Int.ofNat_nonneg _),
    show (Int.ofNat (i * 4 + k)).toNat = i * 4 + k from rfl]
  exact flatten_getD elements i hi k hk

theorem foldl_vecSetIx_length (F : List Int) (z : Int) :
    ∀ fl : List Int,
      (F.foldl (fun fl nd => vecSetIx fl (nd - 1) z) fl).length = fl.length := by
  induction F with
  | nil => intro fl; rfl
  | cons x F' ih =>
    intro fl
    rw [List.foldl_cons, ih, vecSetIx_length]

theorem foldl_setval_getD (F : List Int) (c : Int) :
    ∀ fl : List Int, (∀ x ∈ F, 1 ≤ x ∧ (x - 1).toNat < fl.length) →
    ∀ m : Nat,
    (F.foldl (fun fl nd => vecSetIx fl (nd - 1) c) fl).getD m 0
      = if ∃ x ∈ F, (x - 1).toNat = m then c else fl.getD m 0 := by
  induction F with
  | nil => intro fl _ m; simp
  | cons x F' ih =>
    intro fl hb m
    have hx := hb x (List.mem_cons_self _ _)
    rw [List.foldl_cons]
    rw [ih (vecSetIx fl (x - 1) c) (fun y hy => by
      rw [vecSetIx_length]
      exact hb y (List.mem_cons_of_mem _ hy)) m]
    rw [vecSetIx_eq_set fl (x - 1) (by omega) c]
    by_cases hcase : ∃ y ∈ F', (y - 1).toNat = m
    · rw [if_pos hcase, if_pos (by
        obtain ⟨y, hy, hm⟩ := hcase
        exact ⟨y, List.mem_cons_of_mem _ hy, hm⟩)]
    · rw [if_neg hcase]
      by_cases hxm : (x - 1).toNat = m
      · subst hxm
        rw [getD_set_self (by omega : (x - 1).toNat < fl.length) c]
        rw [if_pos ⟨x, List.mem_cons_self _ _, rfl⟩]
      · rw [getD_set_ne hxm c]
        rw [if_neg (by
          rintro ⟨y, hy, hm⟩
          rcases List.mem_cons.mp hy with rfl | hy'
          · exact hxm hm
          · exact hcase ⟨y, hy', hm⟩)]

theorem flags_indicator (M : Nat) (F : List Int)
    (hF : ∀ x ∈ F, 1 ≤ x ∧ x.toNat ≤ M) (y : Int) (hy1 : 1 ≤ y) :
    vecIx (F.foldl (fun fl nd => vecSetIx fl (nd - 1) 1)
        (List.replicate M (0 : Int))) (y - 1) =
      if y ∈ F then 1 else 0 := by
  rw [vecIx_eq_getD _ (y - 1) (by omega)]
  rw [foldl_setval_getD F 1 (List.replicate M 0)
    (fun x hx => ⟨(hF x hx).1, by
      rw [List.length_replicate]
      have := hF x hx
      omega⟩) (y - 1).toNat]
  by_cases hmem : y ∈ F
  · rw [if_pos ⟨y, hmem, rfl⟩, if_pos hmem]
  · rw [if_neg (by
      rintro ⟨x, hxF, hxm⟩
      have hx := hF x hxF
      have hxy : x = y := by omega
      exact hmem (hxy ▸ hxF)), if_neg hmem]
    simp [List.getD_eq_getElem?_getD, List.getElem?_replicate]
    split <;> rfl

theorem flags_reset (M : Nat) (F : List Int)
    (hF : ∀ x ∈ F, 1 ≤ x ∧ x.toNat ≤ M) :
    F.foldl (fun fl pt => vecSetIx fl (pt - 1) 0)
      (F.foldl (fun fl nd => vecSetIx fl (nd - 1) 1)
        (List.replicate M (0 : Int)))
      = List.replicate M 0 := by
  have hblen : (F.foldl (fun fl nd => vecSetIx fl (nd - 1) 1)
      (List.replicate M (0 : Int))).length = M := by
    rw [foldl_vecSetIx_length, List.length_replicate]
  have hbnd : ∀ x ∈ F, 1 ≤ x ∧ (x - 1).toNat <
      (F.foldl (fun fl nd => vecSetIx fl (nd - 1) 1)
        (List.replicate M (0 : Int))).length := by
    intro x hx
    have := hF x hx
    rw [hblen]
    exact ⟨this.1, by omega⟩
  apply List.ext_getElem
  · rw [foldl_vecSetIx_length, hblen, List.length_replicate]
  · intro m h1 h2
    rw [← List.getD_eq_getElem _ 0 h1, ← List.getD_eq_getElem _ 0 h2]
    rw [foldl_setval_getD F 0 _ hbnd m]
    have hrep : (List.replicate M (0 : Int)).getD m 0 = 0 := by
      simp [List.getD_eq_getElem?_getD, List.getElem?_replicate]
      split <;> rfl
    by_cases hc : ∃ x ∈ F, (x - 1).toNat = m
    · rw [if_pos hc, hrep]
    · rw [if_neg hc]
      rw [foldl_setval_getD F 1 (List.replicate M 0)
        (fun x hx => ⟨(hF x hx).1, by
          rw [List.length_replicate]
          have := hF x hx
          omega⟩) m]
      rw [if_neg hc]

theorem strict_triple_eq {x1 x2 x3 g1 g2 g3 : Int}
    (hx1 : x1 < x2) (hx2 : x2 < x3) (hg1 : g1 < g2) (hg2 : g2 < g3)
    (h1 : x1 = g1 ∨ x1 = g2 ∨ x1 = g3)
    (h2 : x2 = g1 ∨ x2 = g2 ∨ x2 = g3)
    (h3 : x3 = g1 ∨ x3 = g2 ∨ x3 = g3) :
    x1 = g1 ∧ x2 = g2 ∧ x3 = g3 := by
  rcases h1 with rfl | rfl | rfl <;> rcases h2 with h2 | h2 | h2 <;>
    rcases h3 with h3 | h3 | h3 <;> omega

/-- `num_shared` over candidate `j'` and face `ofi` is the sum of the flag
entries of the three nodes of that candidate face. -/
theorem tn_num_shared_as_face (element_nodes flags : List Int) (j' ofi : Nat) :
    tn_num_shared element_nodes flags (Int.ofNat j') ofi =
      (tn_face element_nodes j' ofi).foldl
        (fun acc x => acc + vecIx flags (x - 1)) 0 := by
  unfold tn_num_shared tn_face
  rw [List.foldl_map]
  rfl

theorem indicator_sum_criterion (F : List Int) (x1 x2 x3 : Int)
    (hx1 : x1 < x2) (hx2 : x2 < x3)
    (hFs : F = [F.getD 0 0, F.getD 1 0, F.getD 2 0])
    (hF1 : F.getD 0 0 < F.getD 1 0) (hF2 : F.getD 1 0 < F.getD 2 0) :
    ([x1, x2, x3].foldl
        (fun acc x => acc + (if x ∈ F then (1 : Int) else 0)) 0 = 3)
      ↔ [x1, x2, x3] = F := by
  simp only [List.foldl_cons, List.foldl_nil]
  constructor
  · intro h
    have h1 : x1 ∈ F := by
      by_contra hc
      rw [if_neg hc] at h
      split_ifs at h <;> omega
    have h2 : x2 ∈ F := by
      by_contra hc
      rw [if_neg hc] at h
      split_ifs at h <;> omega
    have h3 : x3 ∈ F := by
      by_contra hc
      rw [if_neg hc] at h
      split_ifs at h <;> omega
    rw [hFs] at h1 h2 h3
    simp only [List.mem_cons, List.not_mem_nil, or_false] at h1 h2 h3
    obtain ⟨e1, e2, e3⟩ := strict_triple_eq hx1 hx2 hF1 hF2 h1 h2 h3
    rw [e1, e2, e3, ← hFs]
  · intro h
    have h1 : x1 ∈ F := by rw [← h]; simp
    have h2 : x2 ∈ F := by rw [← h]; simp
    have h3 : x3 ∈ F := by rw [← h]; simp
    rw [if_pos h1, if_pos h2, if_pos h3]
    norm_num

/-- With the three nodes of face `F` marked in the flag vector,
`num_shared == 3` for a candidate face exactly when that face equals `F`
(both faces being strictly sorted triples). -/
theorem tn_num_shared_criterion (elements : List Tetrahedron) (M : Nat)
    (hvalid : ∀ t ∈ elements, t.valid)
    (hbound : ∀ t ∈ elements, ∀ x ∈ t.nodes, 1 ≤ x ∧ x.toNat ≤ M)
    (F : List Int) (hFs : F = [F.getD 0 0, F.getD 1 0, F.getD 2 0])
    (hF1 : F.getD 0 0 < F.getD 1 0) (hF2 : F.getD 1 0 < F.getD 2 0)
    (hFb : ∀ x ∈ F, 1 ≤ x ∧ x.toNat ≤ M)
    (j' ofi : Nat) (hj' : j' < elements.length) (hofi : ofi < 4) :
    (tn_num_shared (flatten_tetrahedron_vector elements)
        (F.foldl (fun fl nd => vecSetIx fl (nd - 1) 1)
          (List.replicate M (0 : Int)))
        (Int.ofNat j') ofi = 3) ↔
      (elements.getD j' default).faces.getD ofi [] = F := by
  have ht : elements.getD j' default ∈ elements := by
    rw [List.getD_eq_getElem _ _ hj']
    exact List.getElem_mem _
  have hv := hvalid _ ht
  obtain ⟨hsh, hc1, hc2, hcm⟩ := valid_face_sorted _ hv ofi hofi
  rw [tn_num_shared_as_face, tn_face_eq elements j' ofi hj' hofi]
  have hfold : ((elements.getD j' default).faces.getD ofi []).foldl
      (fun acc x => acc + vecIx
        (F.foldl (fun fl nd => vecSetIx fl (nd - 1) 1)
          (List.replicate M (0 : Int))) (x - 1)) 0 =
      ((elements.getD j' default).faces.getD ofi []).foldl
      (fun acc x => acc + (if x ∈ F then (1 : Int) else 0)) 0 :=
    List.foldl_ext _ _ _ (fun b x hx => by
      rw [flags_indicator M F hFb x (hbound _ ht x (hcm x hx)).1])
  rw [hfold]
  set cf := (elements.getD j' default).faces.getD ofi [] with hcf
  rw [hsh]
  exact indicator_sum_criterion F _ _ _ hc1 hc2 hFs hF1 hF2

/-- The four faces of a valid tetrahedron are pairwise distinct. -/
theorem faces_pairwise_ne (t : Tetrahedron) (hv : t.valid) (f1 f2 : Nat)
    (h1 : f1 < 4) (h2 : f2 < 4) (hne : f1 ≠ f2) :
    t.faces.getD f1 [] ≠ t.faces.getD f2 [] := by
  obtain ⟨h0, ha, hb, hc⟩ := hv
  intro he
  interval_cases f1 <;> interval_cases f2 <;>
    first
      | omega
      | (simp only [Tetrahedron.faces, List.getD_cons_zero,
          List.getD_cons_succ, List.cons.injEq, and_true] at he
         omega)

theorem vecSetIx_ofNat_pair (nbrs : List Int) (i j j' fj : Nat) (x y : Int) :
    vecSetIx (vecSetIx nbrs (Int.ofNat (i * 4 + j)) x)
        (Int.ofNat j' * 4 + Int.ofNat fj) y
      = (nbrs.set (4 * i + j) x).set (4 * j' + fj) y := by
  rw [show Int.ofNat j' * 4 + Int.ofNat fj = Int.ofNat (j' * 4 + fj) from rfl]
  rw [vecSetIx_eq_set (vecSetIx nbrs (Int.ofNat (i * 4 + j)) x)
    (Int.ofNat (j' * 4 + fj)) (by exact Int.ofNat_nonneg _) y]
  rw [vecSetIx_eq_set nbrs (Int.ofNat (i * 4 + j))
    (by exact Int.ofNat_nonneg _) x]
  rw [show (Int.ofNat (i * 4 + j)).toNat = 4 * i + j from by
      show i * 4 + j = 4 * i + j
      ring]
  rw [show (Int.ofNat (j' * 4 + fj)).toNat = 4 * j' + fj from by
      show j' * 4 + fj = 4 * j' + fj
      ring]

/-- On a candidate element `j' ≠ i` of a valid mesh, the fast marking loop
(all faces with `num_shared == 3`) does exactly what one step of the naive
scan does (match the unique equal face, or nothing). -/
theorem tn_mark_eq_naive_step (elements : List Tetrahedron) (M : Nat)
    (hvalid : ∀ t ∈ elements, t.valid)
    (hbound : ∀ t ∈ elements, ∀ x ∈ t.nodes, 1 ≤ x ∧ x.toNat ≤ M)
    (i j : Nat) (hi : i < elements.length) (hj : j < 4)
    (nbrs : List Int) (j' : Nat) (hj' : j' < elements.length) (hne : j' ≠ i) :
    tn_mark (flatten_tetrahedron_vector elements)
        (((elements.getD i default).faces.getD j []).foldl
          (fun fl nd => vecSetIx fl (nd - 1) 1) (List.replicate M (0 : Int)))
        i j nbrs (Int.ofNat j')
      = naive_step elements i j ((elements.getD i default).faces.getD j [])
          nbrs j' := by
  have hti : elements.getD i default ∈ elements := by
    rw [List.getD_eq_getElem _ _ hi]
    exact List.getElem_mem _
  have hvi := hvalid _ hti
  obtain ⟨hFs, hF1, hF2, hFm⟩ := valid_face_sorted _ hvi j hj
  have hFb : ∀ x ∈ (elements.getD i default).faces.getD j [],
      1 ≤ x ∧ x.toNat ≤ M := fun x hx => hbound _ hti x (hFm x hx)
  have htj : elements.getD j' default ∈ elements := by
    rw [List.getD_eq_getElem _ _ hj']
    exact List.getElem_mem _
  have hvj := hvalid _ htj
  have hcrit : ∀ ofi, ofi < 4 →
      ((tn_num_shared (flatten_tetrahedron_vector elements)
          (((elements.getD i default).faces.getD j []).foldl
            (fun fl nd => vecSetIx fl (nd - 1) 1)
            (List.replicate M (0 : Int)))
          (Int.ofNat j') ofi = 3) ↔
        (elements.getD j' default).faces.getD ofi [] =
          (elements.getD i default).faces.getD j []) :=
    fun ofi hofi => tn_num_shared_criterion elements M hvalid hbound _
      hFs hF1 hF2 hFb j' ofi hj' hofi
  unfold naive_step
  rw [if_neg hne]
  unfold tn_mark
  rw [show (List.range 4) = [0, 1, 2, 3] from rfl]
  simp only [List.foldl_cons, List.foldl_nil]
  cases hfind : List.find? (fun fj =>
      decide ((elements.getD j' default).faces.getD fj [] =
        (elements.getD i default).faces.getD j [])) [0, 1, 2, 3] with
  | none =>
    have hnone := List.find?_eq_none.mp hfind
    have hnot : ∀ ofi, ofi < 4 →
        ¬ (tn_num_shared (flatten_tetrahedron_vector elements)
          (((elements.getD i default).faces.getD j []).foldl
            (fun fl nd => vecSetIx fl (nd - 1) 1)
            (List.replicate M (0 : Int)))
          (Int.ofNat j') ofi = 3) := by
      intro ofi hofi h
      have h4 := hnone ofi (by interval_cases ofi <;> simp)
      simp only [decide_eq_true_eq] at h4
      exact h4 ((hcrit ofi hofi).mp h)
    rw [if_neg (hnot 0 (by omega)), if_neg (hnot 1 (by omega)),
      if_neg (hnot 2 (by omega)), if_neg (hnot 3 (by omega))]
  | some fj =>
    have hfj4 : fj < 4 := by
      have h := List.mem_of_find?_eq_some hfind
      simp at h
      omega
    have hfjeq : (elements.getD j' default).faces.getD fj [] =
        (elements.getD i default).faces.getD j [] := by
      have := List.find?_some hfind
      simpa using this
    have huniq : ∀ ofi, ofi < 4 → ofi ≠ fj →
        ¬ (tn_num_shared (flatten_tetrahedron_vector elements)
          (((elements.getD i default).faces.getD j []).foldl
            (fun fl nd => vecSetIx fl (nd - 1) 1)
            (List.replicate M (0 : Int)))
          (Int.ofNat j') ofi = 3) := by
      intro ofi hofi hone h
      exact faces_pairwise_ne (elements.getD j' default) hvj ofi fj hofi hfj4
        hone (by rw [(hcrit ofi hofi).mp h, hfjeq])
    have hyes : tn_num_shared (flatten_tetrahedron_vector elements)
        (((elements.getD i default).faces.getD j []).foldl
          (fun fl nd => vecSetIx fl (nd - 1) 1)
          (List.replicate M (0 : Int)))
        (Int.ofNat j') fj = 3 := (hcrit fj hfj4).mpr hfjeq
    interval_cases fj
    · rw [if_pos hyes, if_neg (huniq 1 (by omega) (by omega)),
        if_neg (huniq 2 (by omega) (by omega)),
        if_neg (huniq 3 (by omega) (by omega))]
      exact vecSetIx_ofNat_pair nbrs i j j' 0 (Int.ofNat j') (Int.ofNat i)
    · rw [if_neg (huniq 0 (by omega) (by omega)), if_pos hyes,
        if_neg (huniq 2 (by omega) (by omega)),
        if_neg (huniq 3 (by omega) (by omega))]
      exact vecSetIx_ofNat_pair nbrs i j j' 1 (Int.ofNat j') (Int.ofNat i)
    · rw [if_neg (huniq 0 (by omega) (by omega)),
        if_neg (huniq 1 (by omega) (by omega)), if_pos hyes,
        if_neg (huniq 3 (by omega) (by omega))]
      exact vecSetIx_ofNat_pair nbrs i j j' 2 (Int.ofNat j') (Int.ofNat i)
    · rw [if_neg (huniq 0 (by omega) (by omega)),
        if_neg (huniq 1 (by omega) (by omega)),
        if_neg (huniq 2 (by omega) (by omega)), if_pos hyes]
      exact vecSetIx_ofNat_pair nbrs i j j' 3 (Int.ofNat j') (Int.ofNat i)

theorem foldl_filter_if {α σ : Type} (p : α → Bool) (f : σ → α → σ) :
    ∀ (l : List α) (b : σ), (l.filter p).foldl f b =
      l.foldl (fun x y => if p y then f x y else x) b := by
  intro l
  induction l with
  | nil => intro b; rfl
  | cons a l ih =>
    intro b
    rw [List.filter_cons]
    by_cases hp : p a = true
    · rw [if_pos hp, List.foldl_cons, List.foldl_cons, ih, if_pos hp]
    · rw [if_neg hp, List.foldl_cons, ih, if_neg hp]

/-- Folding the mark step over the incidence list of the face's first node
does exactly what the naive scan over all elements does: non-incident
elements have no face equal to `F`, so the naive scan skips them too. -/
theorem scan_fold_eq_naive (elements : List Tetrahedron) (M : Nat)
    (hvalid : ∀ t ∈ elements, t.valid)
    (hbound : ∀ t ∈ elements, ∀ x ∈ t.nodes, 1 ≤ x ∧ x.toNat ≤ M)
    (i j : Nat) (hi : i < elements.length) (hj : j < 4)
    (nbrs : List Int) :
    (incident elements
        (((elements.getD i default).faces.getD j []).getD 0 0)).foldl
      (fun nbrs elt => if elt = Int.ofNat i then nbrs
        else tn_mark (flatten_tetrahedron_vector elements)
          (((elements.getD i default).faces.getD j []).foldl
            (fun fl nd => vecSetIx fl (nd - 1) 1)
            (List.replicate M (0 : Int)))
          i j nbrs elt) nbrs
    = (List.range elements.length).foldl
        (naive_step elements i j ((elements.getD i default).faces.getD j []))
        nbrs := by
  have hti : elements.getD i default ∈ elements := by
    rw [List.getD_eq_getElem _ _ hi]
    exact List.getElem_mem _
  have hvi := hvalid _ hti
  obtain ⟨hFs, hF1, hF2, hFm⟩ := valid_face_sorted _ hvi j hj
  have hF0 : ((elements.getD i default).faces.getD j []).getD 0 0 ∈
      (elements.getD i default).faces.getD j [] := by
    rw [hFs]
    simp
  unfold incident
  rw [List.foldl_map, foldl_filter_if]
  apply List.foldl_ext
  intro b j' hj'
  have hj'T : j' < elements.length := List.mem_range.mp hj'
  by_cases hji : j' = i
  · subst hji
    unfold naive_step
    by_cases hP : decide ((((elements.getD j' default).faces.getD j []).getD 0 0)
        ∈ (elements.getD j' default).nodes) = true
    · rw [if_pos hP, if_pos (rfl : Int.ofNat j' = Int.ofNat j'),
        if_pos (rfl : j' = j')]
    · rw [if_neg hP, if_pos (rfl : j' = j')]
  · by_cases hP : decide ((((elements.getD i default).faces.getD j []).getD 0 0)
        ∈ (elements.getD j' default).nodes) = true
    · rw [if_pos hP, if_neg (fun h => hji (Int.ofNat.inj h))]
      exact tn_mark_eq_naive_step elements M hvalid hbound i j hi hj b j' hj'T hji
    · rw [if_neg hP]
      unfold naive_step
      rw [if_neg hji]
      have htj : elements.getD j' default ∈ elements := by
        rw [List.getD_eq_getElem _ _ hj'T]
        exact List.getElem_mem _
      have hnone : (List.range 4).find? (fun fj =>
          decide ((elements.getD j' default).faces.getD fj [] =
            (elements.getD i default).faces.getD j [])) = none := by
        rw [List.find?_eq_none]
        intro fj hfjm
        simp only [decide_eq_true_eq]
        intro heq
        apply hP
        rw [decide_eq_true_eq]
        obtain ⟨-, -, -, hcmj⟩ :=
          valid_face_sorted _ (hvalid _ htj) fj (List.mem_range.mp hfjm)
        apply hcmj
        rw [heq]
        exact hF0
      rw [hnone]

theorem intRange_zero (lo : Int) : intRange lo (lo + Int.ofNat 0) = [] := by
  unfold intRange
  rw [show lo + Int.ofNat 0 - lo = 0 from by rw [intOfNat_cast]; push_cast; ring]
  rfl

theorem intRange_succ (lo : Int) (m : Nat) :
    intRange lo (lo + Int.ofNat (m + 1)) =
      lo :: intRange (lo + 1) (lo + 1 + Int.ofNat m) := by
  unfold intRange
  rw [show lo + Int.ofNat (m + 1) - lo = Int.ofNat (m + 1) from by
      rw [intOfNat_cast]; push_cast; ring]
  rw [show lo + 1 + Int.ofNat m - (lo + 1) = Int.ofNat m from by
      rw [intOfNat_cast]; push_cast; ring]
  rw [show (Int.ofNat (m + 1)).toNat = m + 1 from rfl,
    show (Int.ofNat m).toNat = m from rfl]
  rw [List.range_succ_eq_map, List.map_cons, List.map_map]
  congr 1
  · rw [show Int.ofNat 0 = (0 : Int) from rfl]
    ring
  · apply List.map_congr_left
    intro k hk
    simp only [Function.comp]
    rw [intOfNat_cast, intOfNat_cast]
    push_cast
    ring

/-- The candidate scan succeeds when the slot range is inside the element
list, and it folds the mark step over the corresponding slice. -/
theorem tn_scan_ok (element_nodes eltList flags : List Int) (i j : Nat) :
    ∀ (m : Nat) (lo : Int) (nbrs : List Int), 0 ≤ lo →
    lo.toNat + m ≤ eltList.length →
    tn_scan element_nodes eltList flags lo (lo + Int.ofNat m) i j nbrs =
      .ok (((eltList.drop lo.toNat).take m).foldl
        (fun nbrs elt => if elt = Int.ofNat i then nbrs
          else tn_mark element_nodes flags i j nbrs elt) nbrs) := by
  intro m
  induction m with
  | zero =>
    intro lo nbrs hlo hm
    unfold tn_scan
    rw [intRange_zero, List.foldlM_nil, List.take_zero, List.foldl_nil]
    rfl
  | succ m ih =>
    intro lo nbrs hlo hm
    unfold tn_scan
    rw [intRange_succ, List.foldlM_cons]
    have hin : lo.toNat < eltList.length := by omega
    have hAt : vecAt eltList lo = .ok (eltList.getD lo.toNat 0) := by
      unfold vecAt
      rw [if_pos ⟨hlo, hin⟩]
    rw [hAt, ok_bind]
    rw [show (if eltList.getD lo.toNat 0 = Int.ofNat i then
          (pure nbrs : Except String (List Int))
        else pure (tn_mark element_nodes flags i j nbrs
          (eltList.getD lo.toNat 0))) =
        Except.ok (if eltList.getD lo.toNat 0 = Int.ofNat i then nbrs
          else tn_mark element_nodes flags i j nbrs
            (eltList.getD lo.toNat 0)) from by split <;> rfl]
    rw [ok_bind]
    have ih2 := ih (lo + 1)
      (if eltList.getD lo.toNat 0 = Int.ofNat i then nbrs
        else tn_mark element_nodes flags i j nbrs (eltList.getD lo.toNat 0))
      (by omega) (by omega)
    unfold tn_scan at ih2
    rw [ih2]
    rw [show (lo + 1).toNat = lo.toNat + 1 from by omega]
    rw [List.drop_eq_getElem_cons hin, List.take_succ_cons, List.foldl_cons]
    rw [List.getD_eq_getElem _ _ hin]

theorem naive_neighbours_eq_nested (elements : List Tetrahedron) :
    naive_neighbours elements =
      (List.range elements.length).foldl (fun nbrs i =>
        (List.range 4).foldl (fun nbrs f => naive_body elements i f nbrs) nbrs)
      (List.replicate (elements.length * 4) NONE) := rfl

theorem nested_foldl_eq_flat {σ : Type} (body : Nat → Nat → σ → σ)
    (T : Nat) (s0 : σ) :
    (List.range T).foldl (fun s i =>
        (List.range 4).foldl (fun s j => body i j s) s) s0 =
      (List.range (T * 4)).foldl (fun s p => body (p / 4) (p % 4) s) s0 := by
  induction T with
  | zero => rfl
  | succ T ih =>
    rw [List.range_succ T, List.foldl_append, ih]
    rw [show (T + 1) * 4 = T * 4 + 4 from by ring, List.range_add,
      List.foldl_append]
    simp only [List.foldl_cons, List.foldl_nil, List.map_cons, List.map_nil,
      show (List.range 4) = [0, 1, 2, 3] from rfl]
    rw [show (T * 4 + 0) / 4 = T from by omega,
      show (T * 4 + 0) % 4 = 0 from by omega,
      show (T * 4 + 1) / 4 = T from by omega,
      show (T * 4 + 1) % 4 = 1 from by omega,
      show (T * 4 + 2) / 4 = T from by omega,
      show (T * 4 + 2) % 4 = 2 from by omega,
      show (T * 4 + 3) / 4 = T from by omega,
      show (T * 4 + 3) % 4 = 3 from by omega]

theorem naive_eq_flat (elements : List Tetrahedron) :
    naive_neighbours elements = naiveFlat elements (elements.length * 4) := by
  rw [naive_neighbours_eq_nested, nested_foldl_eq_flat]
  rfl

theorem naiveFlat_succ (elements : List Tetrahedron) (i j : Nat)
    (hj : j < 4) :
    naiveFlat elements (i * 4 + j + 1) =
      naive_body elements i j (naiveFlat elements (i * 4 + j)) := by
  unfold naiveFlat
  rw [List.range_succ (i * 4 + j), List.foldl_append, List.foldl_cons,
    List.foldl_nil]
  rw [show (i * 4 + j) / 4 = i from by omega,
    show (i * 4 + j) % 4 = j from by omega]

/-- The CSR facts needed by the neighbour-equivalence proof: success, the
offset values (prefix counts), the element-list length, and the slices. -/
theorem csr_full (elements : List Tetrahedron) (M : Nat)
    (hvalid : ∀ t ∈ elements, t.valid)
    (hbound : ∀ t ∈ elements, ∀ x ∈ t.nodes, 1 ≤ x ∧ x.toNat ≤ M)
    (hcover : ∀ n : Nat, 1 ≤ n → n ≤ M →
      ∃ t ∈ elements, ((n : Nat) : Int) ∈ t.nodes)
    (hM1 : 1 ≤ M) :
    ∃ r, elements_around_points (flatten_tetrahedron_vector elements) = .ok r ∧
      r.list_indices.length = M + 1 ∧
      r.elt_list.length = (flatten_tetrahedron_vector elements).length ∧
      (∀ k < M + 1, r.list_indices.getD k 0 =
        ((cntSum (flatten_tetrahedron_vector elements) k : Nat) : Int)) ∧
      (∀ n : Nat, 1 ≤ n → n ≤ M →
        csrSlice r n = incident elements ((n : Nat) : Int)) := by
  have hbn : ∀ t ∈ flatten_tetrahedron_vector elements,
      1 ≤ t ∧ t.toNat ≤ M := by
    intro t ht
    obtain ⟨e, he, hte⟩ := mem_flatten.mp ht
    exact hbound e he t hte
  have hlen4 : (flatten_tetrahedron_vector elements).length % 4 = 0 := by
    rw [flatten_length]
    omega
  have hmem : ((M : Nat) : Int) ∈ flatten_tetrahedron_vector elements := by
    obtain ⟨t, ht, htm⟩ := hcover M hM1 (le_refl _)
    exact mem_flatten.mpr ⟨t, ht, htm⟩
  obtain ⟨r, hr, hilen, hellen, hival, -⟩ :=
    eap_spec (flatten_tetrahedron_vector elements) M hlen4 hbn hmem
  obtain ⟨r2, hr2, -, -, -, hslice⟩ :=
    csr_spec elements M hvalid hbound hcover hM1
  rw [hr] at hr2
  obtain rfl := Except.ok.inj hr2
  exact ⟨r, hr, hilen, hellen, hival, hslice⟩

/-- One face slot of the fast builder, started with a clean flag vector,
succeeds and does exactly what the corresponding naive slot does, returning
the flags to a clean state. -/
theorem tn_step_ok (elements : List Tetrahedron) (M : Nat)
    (r : EltsAroundPoints)
    (hvalid : ∀ t ∈ elements, t.valid)
    (hbound : ∀ t ∈ elements, ∀ x ∈ t.nodes, 1 ≤ x ∧ x.toNat ≤ M)
    (hival : ∀ k < M + 1, r.list_indices.getD k 0 =
      ((cntSum (flatten_tetrahedron_vector elements) k : Nat) : Int))
    (hellen : r.elt_list.length = (flatten_tetrahedron_vector elements).length)
    (hslice : ∀ n : Nat, 1 ≤ n → n ≤ M →
      csrSlice r n = incident elements ((n : Nat) : Int))
    (i j : Nat) (hi : i < elements.length) (hj : j < 4) (nbrs : List Int) :
    tn_step (flatten_tetrahedron_vector elements) r.elt_list r.list_indices
        i j (nbrs, List.replicate M (0 : Int)) =
      .ok (naive_body elements i j nbrs, List.replicate M (0 : Int)) := by
  rw [show tn_step (flatten_tetrahedron_vector elements) r.elt_list
      r.list_indices i j (nbrs, List.replicate M (0 : Int)) =
    (if nbrs.getD (i * 4 + j) 0 ≠ NONE then
      (pure (nbrs, List.replicate M (0 : Int)) :
        Except String (List Int × List Int))
    else
      (tn_scan (flatten_tetrahedron_vector elements) r.elt_list
        ((tn_face (flatten_tetrahedron_vector elements) i j).foldl
          (fun fl nd => vecSetIx fl (nd - 1) 1) (List.replicate M 0))
        (vecIx r.list_indices
          ((tn_face (flatten_tetrahedron_vector elements) i j).getD 0 0 - 1))
        (vecIx r.list_indices
          ((tn_face (flatten_tetrahedron_vector elements) i j).getD 0 0))
        i j nbrs) >>= fun nbrs1 =>
      pure (nbrs1,
        (tn_face (flatten_tetrahedron_vector elements) i j).foldl
          (fun fl pt => vecSetIx fl (pt - 1) 0)
          ((tn_face (flatten_tetrahedron_vector elements) i j).foldl
            (fun fl nd => vecSetIx fl (nd - 1) 1) (List.replicate M 0))))
    from rfl]
  unfold naive_body
  rw [show 4 * i + j = i * 4 + j from by ring]
  by_cases hg : nbrs.getD (i * 4 + j) 0 ≠ NONE
  · rw [if_pos hg, if_pos hg]
    rfl
  · rw [if_neg hg, if_neg hg]
    have hti : elements.getD i default ∈ elements := by
      rw [List.getD_eq_getElem _ _ hi]
      exact List.getElem_mem _
    have hvi := hvalid _ hti
    obtain ⟨hFs, hF1, hF2, hFm⟩ := valid_face_sorted _ hvi j hj
    have hF0mem : ((elements.getD i default).faces.getD j []).getD 0 0 ∈
        (elements.getD i default).faces.getD j [] := by
      rw [hFs]
      simp
    have hFb : ∀ x ∈ (elements.getD i default).faces.getD j [],
        1 ≤ x ∧ x.toNat ≤ M := fun x hx => hbound _ hti x (hFm x hx)
    have hF0b := hFb _ hF0mem
    rw [tn_face_eq elements i j hi hj]
    have hF0eq : ((elements.getD i default).faces.getD j []).getD 0 0 =
        ((((elements.getD i default).faces.getD j []).getD 0 0).toNat : Int) :=
      by omega
    have hlo : vecIx r.list_indices
        (((elements.getD i default).faces.getD j []).getD 0 0 - 1) =
        ((cntSum (flatten_tetrahedron_vector elements)
          ((((elements.getD i default).faces.getD j []).getD 0 0).toNat - 1)
          : Nat) : Int) := by
      rw [vecIx_eq_getD _ _ (by omega)]
      rw [show (((elements.getD i default).faces.getD j []).getD 0 0
          - 1).toNat =
        (((elements.getD i default).faces.getD j []).getD 0 0).toNat - 1
        from by omega]
      exact hival _ (by omega)
    have hhi : vecIx r.list_indices
        (((elements.getD i default).faces.getD j []).getD 0 0) =
        ((cntSum (flatten_tetrahedron_vector elements)
          ((((elements.getD i default).faces.getD j []).getD 0 0).toNat)
          : Nat) : Int) := by
      rw [vecIx_eq_getD _ _ (by omega)]
      exact hival _ (by omega)
    rw [hlo, hhi]
    have hmono : cntSum (flatten_tetrahedron_vector elements)
        ((((elements.getD i default).faces.getD j []).getD 0 0).toNat - 1) ≤
        cntSum (flatten_tetrahedron_vector elements)
        ((((elements.getD i default).faces.getD j []).getD 0 0).toNat) :=
      cntSum_mono _ (by omega)
    rw [show ((cntSum (flatten_tetrahedron_vector elements)
          ((((elements.getD i default).faces.getD j []).getD 0 0).toNat)
          : Nat) : Int) =
        ((cntSum (flatten_tetrahedron_vector elements)
          ((((elements.getD i default).faces.getD j []).getD 0 0).toNat - 1)
          : Nat) : Int) +
        Int.ofNat (cntSum (flatten_tetrahedron_vector elements)
            ((((elements.getD i default).faces.getD j []).getD 0 0).toNat) -
          cntSum (flatten_tetrahedron_vector elements)
            ((((elements.getD i default).faces.getD j []).getD 0 0).toNat - 1))
      from by rw [intOfNat_cast, Nat.cast_sub hmono]; ring]
    have hbn : ∀ t ∈ flatten_tetrahedron_vector elements,
        1 ≤ t ∧ t.toNat ≤ M := by
      intro t ht
      obtain ⟨e, he, hte⟩ := mem_flatten.mp ht
      exact hbound e he t hte
    have htotal : cntSum (flatten_tetrahedron_vector elements) M =
        (flatten_tetrahedron_vector elements).length :=
      cntSum_total M (fun t ht => by have := hbn t ht; omega)
    have hcM : cntSum (flatten_tetrahedron_vector elements)
        ((((elements.getD i default).faces.getD j []).getD 0 0).toNat) ≤
        (flatten_tetrahedron_vector elements).length := by
      rw [← htotal]
      exact cntSum_mono _ (by omega)
    rw [tn_scan_ok (flatten_tetrahedron_vector elements) r.elt_list
      ((((elements.getD i default).faces.getD j [])).foldl
        (fun fl nd => vecSetIx fl (nd - 1) 1) (List.replicate M 0)) i j
      (cntSum (flatten_tetrahedron_vector elements)
          ((((elements.getD i default).faces.getD j []).getD 0 0).toNat) -
        cntSum (flatten_tetrahedron_vector elements)
          ((((elements.getD i default).faces.getD j []).getD 0 0).toNat - 1))
      ((cntSum (flatten_tetrahedron_vector elements)
        ((((elements.getD i default).faces.getD j []).getD 0 0).toNat - 1)
        : Nat) : Int)
      nbrs (by exact Int.natCast_nonneg _) (by rw [hellen]; omega)]
    rw [ok_bind]
    have hcs : ((r.elt_list.drop
        (((cntSum (flatten_tetrahedron_vector elements)
          ((((elements.getD i default).faces.getD j []).getD 0 0).toNat - 1)
          : Nat) : Int)).toNat).take
        (cntSum (flatten_tetrahedron_vector elements)
            ((((elements.getD i default).faces.getD j []).getD 0 0).toNat) -
          cntSum (flatten_tetrahedron_vector elements)
            ((((elements.getD i default).faces.getD j []).getD 0 0).toNat - 1)))
        = csrSlice r
            ((((elements.getD i default).faces.getD j []).getD 0 0).toNat) := by
      unfold csrSlice
      rw [hival _ (by omega : ((((elements.getD i default).faces.getD j
          []).getD 0 0).toNat - 1) < M + 1),
        hival _ (by omega : ((((elements.getD i default).faces.getD j
          []).getD 0 0).toNat) < M + 1)]
      congr 1
    rw [hcs, hslice _ (by omega) (by omega)]
    rw [show (((((elements.getD i default).faces.getD j []).getD 0 0).toNat
        : Nat) : Int) = ((elements.getD i default).faces.getD j []).getD 0 0
      from by omega]
    rw [scan_fold_eq_naive elements M hvalid hbound i j hi hj nbrs]
    rw [flags_reset M _ hFb]
    rfl

/-- The fast neighbour builder succeeds and computes exactly the naive
O(N²) reference result on a valid mesh with contiguous node tags `1..M`. -/
theorem tn_eq_naive (elements : List Tetrahedron) (M : Nat)
    (hvalid : ∀ t ∈ elements, t.valid)
    (hbound : ∀ t ∈ elements, ∀ x ∈ t.nodes, 1 ≤ x ∧ x.toNat ≤ M)
    (hcover : ∀ n : Nat, 1 ≤ n → n ≤ M →
      ∃ t ∈ elements, ((n : Nat) : Int) ∈ t.nodes)
    (hM1 : 1 ≤ M) :
    tetrahedron_neighbours elements = .ok (naive_neighbours elements) := by
  obtain ⟨r, hr, hilen, hellen, hival, hslice⟩ :=
    csr_full elements M hvalid hbound hcover hM1
  show (elements_around_points (flatten_tetrahedron_vector elements) >>=
      fun elt_indices =>
      ((List.range ((flatten_tetrahedron_vector elements).length / 4)).foldlM
        (fun s i => (List.range 4).foldlM
          (fun s j => tn_step (flatten_tetrahedron_vector elements)
            elt_indices.elt_list elt_indices.list_indices i j s) s)
        (List.replicate (((flatten_tetrahedron_vector elements).length / 4)
            * 4) NONE,
          List.replicate (elt_indices.list_indices.length - 1) (0 : Int)) >>=
        fun s => pure s.1))
    = Except.ok (naive_neighbours elements)
  rw [hr, ok_bind]
  rw [show (flatten_tetrahedron_vector elements).length / 4 = elements.length
      from by rw [flatten_length]; omega]
  rw [show r.list_indices.length - 1 = M from by omega]
  obtain ⟨s1, hs1, hInv⟩ := nested4_foldlM_inv
    (fun i j s => tn_step (flatten_tetrahedron_vector elements) r.elt_list
      r.list_indices i j s)
    (fun k s => s.1 = naiveFlat elements k ∧
      s.2 = List.replicate M (0 : Int))
    elements.length
    (by
      intro i j s hi hj hInv
      obtain ⟨nb, fl⟩ := s
      have h1 : nb = naiveFlat elements (i * 4 + j) := hInv.1
      have h2 : fl = List.replicate M (0 : Int) := hInv.2
      subst h1
      subst h2
      refine ⟨(naive_body elements i j (naiveFlat elements (i * 4 + j)),
        List.replicate M (0 : Int)), ?_, ?_, rfl⟩
      · exact tn_step_ok elements M r hvalid hbound hival hellen hslice
          i j hi hj (naiveFlat elements (i * 4 + j))
      · exact (naiveFlat_succ elements i j hj).symm)
    (List.replicate (elements.length * 4) NONE,
      List.replicate M (0 : Int))
    ⟨rfl, rfl⟩
  rw [hs1, ok_bind]
  rw [show (Prod.fst s1 : List Int) = naiveFlat elements
      (4 * elements.length) from hInv.1]
  rw [naive_eq_flat,
    show elements.length * 4 = 4 * elements.length from by ring]
  rfl

/-- C1: for every list of valid tetrahedra (four distinct positive node
tags each, sorted by the constructor) whose node tags are contiguous from
1 to the maximum tag `M`, the fast `tetrahedron_neighbours` succeeds and
returns exactly the neighbour table produced by the naive O(N²) baseline
`naive_neighbours` that compares every face of every pair of elements. -/
theorem claim_C1 (elements : List Tetrahedron) (M : Nat)
    (hvalid : ∀ t ∈ elements, t.valid)
    (hbound : ∀ t ∈ elements, ∀ x ∈ t.nodes, 1 ≤ x ∧ x.toNat ≤ M)
    (hcover : ∀ n : Nat, 1 ≤ n → n ≤ M →
      ∃ t ∈ elements, ((n : Nat) : Int) ∈ t.nodes)
    (hM1 : 1 ≤ M) :
    tetrahedron_neighbours elements = .ok (naive_neighbours elements) :=
  tn_eq_naive elements M hvalid hbound hcover hM1

theorem claim_C1_witness :
    tetrahedron_neighbours
        ([⟨1, 2, 3, 4⟩, ⟨2, 3, 4, 5⟩] : List Tetrahedron) =
      .ok (naive_neighbours ([⟨1, 2, 3, 4⟩, ⟨2, 3, 4, 5⟩] : List Tetrahedron)) :=
  claim_C1 [⟨1, 2, 3, 4⟩, ⟨2, 3, 4, 5⟩] 5
    (by intro t ht; fin_cases ht <;>
      exact ⟨by decide, by decide, by decide, by decide⟩)
    (by intro t ht; fin_cases ht <;>
      (intro x hx; fin_cases hx <;> exact ⟨by decide, by decide⟩))
    (by intro n h1 h2; interval_cases n <;> decide)
    (by omega)

/-! ### C3 — the candidate scan has no break: the last match wins -/

theorem naive_step_length (elements : List Tetrahedron) (i f : Nat)
    (face : List Int) (nbrs : List Int) (j : Nat) :
    (naive_step elements i f face nbrs j).length = nbrs.length := by
  unfold naive_step
  split
  · rfl
  · split <;> simp

theorem foldl_naive_length (elements : List Tetrahedron) (i f : Nat)
    (face : List Int) :
    ∀ (l : List Nat) (nbrs : List Int),
      (l.foldl (naive_step elements i f face) nbrs).length = nbrs.length := by
  intro l
  induction l with
  | nil => intro nbrs; rfl
  | cons x l ih =>
    intro nbrs
    rw [List.foldl_cons, ih, naive_step_length]

/-- The value a candidate scan leaves in the slot being scanned is the
LAST matching candidate in scan order (each match overwrites the slot; a
candidate's reciprocal write cannot touch this slot). -/
theorem scan_slot_last (elements : List Tetrahedron) (i f : Nat)
    (face : List Int) :
    ∀ (l : List Nat) (nbrs : List Int), 4 * i + f < nbrs.length → f < 4 →
    ((l.foldl (naive_step elements i f face) nbrs).getD (4 * i + f) 0 =
      match (l.filter (fun j => decide (j ≠ i) &&
          ((List.range 4).find? (fun fj =>
            decide ((elements.getD j default).faces.getD fj [] =
              face))).isSome)).getLast? with
      | some j => Int.ofNat j
      | none => nbrs.getD (4 * i + f) 0) := by
  intro l
  induction l using List.reverseRecOn with
  | nil => intro nbrs hlen hf; rfl
  | append_singleton l j ih =>
    intro nbrs hlen hf
    rw [List.foldl_append, List.foldl_cons, List.foldl_nil]
    rw [List.filter_append, List.filter_singleton]
    by_cases hP : (decide (j ≠ i) && ((List.range 4).find? (fun fj =>
        decide ((elements.getD j default).faces.getD fj [] =
          face))).isSome) = true
    · rw [hP, cond_true, List.getLast?_concat]
      have hne : j ≠ i := by
        simp only [Bool.and_eq_true, decide_eq_true_eq] at hP
        exact hP.1
      have hsome : ((List.range 4).find? (fun fj =>
          decide ((elements.getD j default).faces.getD fj [] =
            face))).isSome = true := by
        simp only [Bool.and_eq_true] at hP
        exact hP.2
      obtain ⟨fj, hfj⟩ := Option.isSome_iff_exists.mp hsome
      have hfj4 : fj < 4 := List.mem_range.mp (List.mem_of_find?_eq_some hfj)
      have hstep : naive_step elements i f face
          (l.foldl (naive_step elements i f face) nbrs) j =
          (((l.foldl (naive_step elements i f face) nbrs).set (4 * i + f)
            (Int.ofNat j)).set (4 * j + fj) (Int.ofNat i)) := by
        unfold naive_step
        rw [if_neg hne, hfj]
      rw [hstep]
      rw [getD_set_ne (by omega : 4 * j + fj ≠ 4 * i + f) (Int.ofNat i)]
      have hNB : 4 * i + f <
          (l.foldl (naive_step elements i f face) nbrs).length := by
        rw [foldl_naive_length]
        omega
      rw [getD_set_self hNB (Int.ofNat j)]
    · have hPf : (decide (j ≠ i) && ((List.range 4).find? (fun fj =>
          decide ((elements.getD j default).faces.getD fj [] =
            face))).isSome) = false := by
        cases h : (decide (j ≠ i) && ((List.range 4).find? (fun fj =>
            decide ((elements.getD j default).faces.getD fj [] =
              face))).isSome)
        · rfl
        · exact absurd h hP
      rw [hPf, cond_false, List.append_nil]
      have hid : naive_step elements i f face
          (l.foldl (naive_step elements i f face) nbrs) j =
          l.foldl (naive_step elements i f face) nbrs := by
        unfold naive_step
        by_cases hji : j = i
        · rw [if_pos hji]
        · rw [if_neg hji]
          cases hfind : (List.range 4).find? (fun fj =>
              decide ((elements.getD j default).faces.getD fj [] =
                face)) with
          | none => rfl
          | some fj =>
            exact absurd (by rw [hfind]; simp [hji]) hP
      rw [hid, ih nbrs hlen hf]

/-- C3: the spec says the first match found in scan order remains the
stored value of the slot being scanned; in fact there is no `break` in the
candidate scan, every match overwrites the slot, and the LAST matching
element in scan order is the stored value (amended claim). -/
theorem claim_C3 (elements : List Tetrahedron) (i f : Nat) (face : List Int)
    (nbrs : List Int) (hlen : 4 * i + f < nbrs.length) (hf : f < 4) :
    ((List.range elements.length).foldl
        (naive_step elements i f face) nbrs).getD (4 * i + f) 0 =
      match ((List.range elements.length).filter (fun j => decide (j ≠ i) &&
          ((List.range 4).find? (fun fj =>
            decide ((elements.getD j default).faces.getD fj [] =
              face))).isSome)).getLast? with
      | some j => Int.ofNat j
      | none => nbrs.getD (4 * i + f) 0 :=
  scan_slot_last elements i f face (List.range elements.length) nbrs hlen hf

theorem claim_C3_witness :
    4 * 0 + 3 < (List.replicate 12 NONE : List Int).length ∧ 3 < 4 ∧
    ((List.range ([⟨1, 2, 3, 4⟩, ⟨1, 2, 3, 5⟩, ⟨1, 2, 3, 6⟩] :
          List Tetrahedron).length).foldl
        (naive_step [⟨1, 2, 3, 4⟩, ⟨1, 2, 3, 5⟩, ⟨1, 2, 3, 6⟩] 0 3 [1, 2, 3])
        (List.replicate 12 NONE)).getD (4 * 0 + 3) 0 =
      match ((List.range ([⟨1, 2, 3, 4⟩, ⟨1, 2, 3, 5⟩, ⟨1, 2, 3, 6⟩] :
          List Tetrahedron).length).filter (fun j => decide (j ≠ 0) &&
          ((List.range 4).find? (fun fj =>
            decide ((([⟨1, 2, 3, 4⟩, ⟨1, 2, 3, 5⟩, ⟨1, 2, 3, 6⟩] :
              List Tetrahedron).getD j default).faces.getD fj [] =
              [1, 2, 3]))).isSome)).getLast? with
      | some j => Int.ofNat j
      | none => (List.replicate 12 NONE : List Int).getD (4 * 0 + 3) 0 :=
  ⟨by decide, by decide,
    claim_C3 [⟨1, 2, 3, 4⟩, ⟨1, 2, 3, 5⟩, ⟨1, 2, 3, 6⟩] 0 3 [1, 2, 3]
      (List.replicate 12 NONE) (by decide) (by decide)⟩

/-- C3 counterexample: three tetrahedra all share the face `{1,2,3}`
(face slot 3 of each).  Scanning face 3 of element 0, the first match in
scan order is element 1, but the table returned by
`tetrahedron_neighbours` stores element 2 — the last match — in that
slot, so the first match does not remain. -/
theorem claim_C3_counterexample :
    tetrahedron_neighbours
        ([⟨1, 2, 3, 4⟩, ⟨1, 2, 3, 5⟩, ⟨1, 2, 3, 6⟩] : List Tetrahedron) =
      .ok [-1, -1, -1, 2, -1, -1, -1, 0, -1, -1, -1, 0] ∧
    (⟨1, 2, 3, 5⟩ : Tetrahedron).faces.getD 3 [] =
      (⟨1, 2, 3, 4⟩ : Tetrahedron).faces.getD 3 [] ∧
    (⟨1, 2, 3, 6⟩ : Tetrahedron).faces.getD 3 [] =
      (⟨1, 2, 3, 4⟩ : Tetrahedron).faces.getD 3 [] ∧
    ([-1, -1, -1, 2, -1, -1, -1, 0, -1, -1, -1, 0] : List Int).getD
      (4 * 0 + 3) 0 = 2 ∧
    ¬ ([-1, -1, -1, 2, -1, -1, -1, 0, -1, -1, -1, 0] : List Int).getD
      (4 * 0 + 3) 0 = 1 :=
  ⟨by rfl, by decide, by decide, by decide, by decide⟩

/-! ### C2 — reciprocity of the neighbour table on manifold meshes -/

theorem naive_body_length (elements : List Tetrahedron) (i f : Nat)
    (nbrs : List Int) :
    (naive_body elements i f nbrs).length = nbrs.length := by
  unfold naive_body
  split
  · rfl
  · rw [foldl_naive_length]

theorem naiveFlat_succ_any (elements : List Tetrahedron) (k : Nat) :
    naiveFlat elements (k + 1) =
      naive_body elements (k / 4) (k % 4) (naiveFlat elements k) := by
  unfold naiveFlat
  rw [List.range_succ k, List.foldl_append, List.foldl_cons, List.foldl_nil]

theorem naiveFlat_length (elements : List Tetrahedron) (k : Nat) :
    (naiveFlat elements k).length = elements.length * 4 := by
  induction k with
  | zero => unfold naiveFlat; simp
  | succ k ih => rw [naiveFlat_succ_any, naive_body_length, ih]

theorem foldl_id {σ α : Type} (f : σ → α → σ) :
    ∀ (l : List α) (b : σ), (∀ x ∈ l, ∀ s, f s x = s) → l.foldl f b = b := by
  intro l
  induction l with
  | nil => intro b _; rfl
  | cons a l ih =>
    intro b h
    rw [List.foldl_cons, h a (List.mem_cons_self _ _) b]
    exact ih b (fun x hx s => h x (List.mem_cons_of_mem _ hx) s)

theorem foldl_eq_single {σ α : Type} [DecidableEq α] (f : σ → α → σ)
    (a : α) :
    ∀ (l : List α) (b : σ), l.Nodup → a ∈ l →
      (∀ x ∈ l, x ≠ a → ∀ s, f s x = s) → l.foldl f b = f b a := by
  intro l
  induction l with
  | nil => intro b _ hmem _; cases hmem
  | cons x l ih =>
    intro b hnd hmem hid
    rw [List.foldl_cons]
    by_cases hx : x = a
    · subst hx
      have hnotin : x ∉ l := (List.nodup_cons.mp hnd).1
      exact foldl_id f l (f b x) (fun y hy s =>
        hid y (List.mem_cons_of_mem _ hy) (fun he => hnotin (he ▸ hy)) s)
    · rw [hid x (List.mem_cons_self _ _) hx b]
      refine ih b (List.nodup_cons.mp hnd).2 ?_
        (fun y hy hne s => hid y (List.mem_cons_of_mem _ hy) hne s)
      rcases List.mem_cons.mp hmem with h | h
      · exact absurd h.symm hx
      · exact h

theorem find?_unique {α : Type} (p : α → Bool) (a : α) :
    ∀ l : List α, a ∈ l → p a = true → (∀ x ∈ l, p x = true → x = a) →
      l.find? p = some a := by
  intro l
  induction l with
  | nil => intro h; cases h
  | cons x l ih =>
    intro hmem hpa huniq
    by_cases hpx : p x = true
    · rw [List.find?_cons_of_pos _ hpx,
        huniq x (List.mem_cons_self _ _) hpx]
    · rw [List.find?_cons_of_neg _ (by simpa using hpx)]
      refine ih ?_ hpa (fun y hy hpy => huniq y (List.mem_cons_of_mem _ hy) hpy)
      rcases List.mem_cons.mp hmem with rfl | h
      · exact absurd hpa hpx
      · exact h

/-- If no other element has a face equal to the scanned face, the naive
candidate scan changes nothing. -/
theorem scan_no_match (elements : List Tetrahedron) (i f : Nat)
    (face : List Int) (nbrs : List Int)
    (hno : ∀ j, j < elements.length → j ≠ i → ∀ fj, fj < 4 →
      (elements.getD j default).faces.getD fj [] ≠ face) :
    (List.range elements.length).foldl (naive_step elements i f face) nbrs
      = nbrs := by
  apply foldl_id
  intro j hj s
  have hjT := List.mem_range.mp hj
  unfold naive_step
  by_cases hji : j = i
  · rw [if_pos hji]
  · rw [if_neg hji]
    have hnone : (List.range 4).find? (fun fj =>
        decide ((elements.getD j default).faces.getD fj [] = face)) = none := by
      rw [List.find?_eq_none]
      intro fj hfjm
      simp only [decide_eq_true_eq]
      exact hno j hjT hji fj (List.mem_range.mp hfjm)
    rw [hnone]

/-- If exactly one `(element, face)` pair matches the scanned face, the
naive candidate scan writes exactly the two mutual entries. -/
theorem scan_unique_match (elements : List Tetrahedron) (i f : Nat)
    (face : List Int) (nbrs : List Int) (jm fjm : Nat)
    (hjT : jm < elements.length) (hji : jm ≠ i) (hfj4 : fjm < 4)
    (hmatch : (elements.getD jm default).faces.getD fjm [] = face)
    (huniq : ∀ j, j < elements.length → j ≠ i → ∀ fj, fj < 4 →
      (elements.getD j default).faces.getD fj [] = face →
        j = jm ∧ fj = fjm) :
    (List.range elements.length).foldl (naive_step elements i f face) nbrs =
      (nbrs.set (4 * i + f) (Int.ofNat jm)).set (4 * jm + fjm)
        (Int.ofNat i) := by
  have hid : ∀ x ∈ List.range elements.length, x ≠ jm →
      ∀ s, naive_step elements i f face s x = s := by
    intro j hj hne s
    have hjT' := List.mem_range.mp hj
    unfold naive_step
    by_cases hji' : j = i
    · rw [if_pos hji']
    · rw [if_neg hji']
      have hnone : (List.range 4).find? (fun fj =>
          decide ((elements.getD j default).faces.getD fj [] = face))
          = none := by
        rw [List.find?_eq_none]
        intro fj hfjm
        simp only [decide_eq_true_eq]
        intro heq
        exact hne (huniq j hjT' hji' fj (List.mem_range.mp hfjm) heq).1
      rw [hnone]
  rw [foldl_eq_single (naive_step elements i f face) jm
    (List.range elements.length) nbrs (List.nodup_range _)
    (List.mem_range.mpr hjT) hid]
  have hfind : (List.range 4).find? (fun fj =>
      decide ((elements.getD jm default).faces.getD fj [] = face))
      = some fjm := by
    apply find?_unique _ fjm (List.range 4) (List.mem_range.mpr hfj4)
      (by simp only [decide_eq_true_eq]; exact hmatch)
    intro fj hfjm hpfj
    simp only [decide_eq_true_eq] at hpfj
    exact (huniq jm hjT hji fj (List.mem_range.mp hfjm) hpfj).2
  unfold naive_step
  rw [if_neg hji, hfind]

theorem slotFace_mk (elements : List Tetrahedron) (j fj : Nat)
    (hfj : fj < 4) :
    slotFace elements (4 * j + fj) =
      (elements.getD j default).faces.getD fj [] := by
  unfold slotFace
  rw [show (4 * j + fj) / 4 = j from by omega,
    show (4 * j + fj) % 4 = fj from by omega]

/-- On a manifold mesh (no face shared by three distinct elements) of
valid tetrahedra, the partner slot of a slot is unique. -/
theorem partner_unique (elements : List Tetrahedron)
    (hvalid : ∀ t ∈ elements, t.valid)
    (hman : ∀ p q r : Nat, p < 4 * elements.length →
      q < 4 * elements.length → r < 4 * elements.length →
      p / 4 ≠ q / 4 → p / 4 ≠ r / 4 → q / 4 ≠ r / 4 →
      slotFace elements p = slotFace elements q →
      slotFace elements q = slotFace elements r → False)
    (p q1 q2 : Nat) (hp : p < 4 * elements.length)
    (hq1 : q1 < 4 * elements.length) (hq2 : q2 < 4 * elements.length)
    (h1 : q1 / 4 ≠ p / 4) (h2 : q2 / 4 ≠ p / 4)
    (hf1 : slotFace elements q1 = slotFace elements p)
    (hf2 : slotFace elements q2 = slotFace elements p) : q1 = q2 := by
  by_cases he : q1 / 4 = q2 / 4
  · by_contra hne
    have hmod : q1 % 4 ≠ q2 % 4 := by omega
    have htm : elements.getD (q1 / 4) default ∈ elements := by
      rw [List.getD_eq_getElem _ _ (by omega : q1 / 4 < elements.length)]
      exact List.getElem_mem _
    apply faces_pairwise_ne (elements.getD (q1 / 4) default) (hvalid _ htm)
      (q1 % 4) (q2 % 4) (by omega) (by omega) hmod
    have hq12 : slotFace elements q1 = slotFace elements q2 :=
      hf1.trans hf2.symm
    unfold slotFace at hq12
    rw [← he] at hq12
    exact hq12
  · exact absurd (hf1.trans hf2.symm)
      (fun h12 => hman p q1 q2 hp hq1 hq2 (Ne.symm h1) (Ne.symm h2) he
        hf1.symm h12)

/-- Reciprocity invariant of the naive builder on a manifold mesh: at
every stage of the flat fold, every slot is either still `NONE` or
mutually paired with the unique partner slot carrying an equal face. -/
theorem naive_reciprocal (elements : List Tetrahedron)
    (hvalid : ∀ t ∈ elements, t.valid)
    (hman : ∀ p q r : Nat, p < 4 * elements.length →
      q < 4 * elements.length → r < 4 * elements.length →
      p / 4 ≠ q / 4 → p / 4 ≠ r / 4 → q / 4 ≠ r / 4 →
      slotFace elements p = slotFace elements q →
      slotFace elements q = slotFace elements r → False) :
    ∀ k p, p < 4 * elements.length →
      ((naiveFlat elements k).getD p 0 = NONE ∨
      ∃ q, q < 4 * elements.length ∧ q / 4 ≠ p / 4 ∧
        slotFace elements q = slotFace elements p ∧
        (naiveFlat elements k).getD p 0 = Int.ofNat (q / 4) ∧
        (naiveFlat elements k).getD q 0 = Int.ofNat (p / 4)) := by
  intro k
  induction k with
  | zero =>
    intro p hp
    left
    show (List.replicate (elements.length * 4) NONE).getD p 0 = NONE
    rw [List.getD_eq_getElem _ _ (by rw [List.length_replicate]; omega)]
    simp
  | succ k ih =>
    intro p hp
    have hNBlen := naiveFlat_length elements k
    by_cases hguard :
        (naiveFlat elements k).getD (4 * (k / 4) + k % 4) 0 ≠ NONE
    · have hbody : naive_body elements (k / 4) (k % 4) (naiveFlat elements k)
          = naiveFlat elements k := by
        unfold naive_body
        rw [if_pos hguard]
      rw [naiveFlat_succ_any, hbody]
      exact ih p hp
    · have hkNone : (naiveFlat elements k).getD k 0 = NONE := by
        have h := not_not.mp hguard
        rw [show 4 * (k / 4) + k % 4 = k from by omega] at h
        exact h
      have hkL : k < 4 * elements.length := by
        by_contra hcon
        rw [List.getD_eq_default _ _
          (by omega : (naiveFlat elements k).length ≤ k)] at hkNone
        exact absurd hkNone (by decide)
      by_cases hpart : ∃ q, q < 4 * elements.length ∧ q / 4 ≠ k / 4 ∧
          slotFace elements q = slotFace elements k
      · obtain ⟨q0, hq0L, hq0e, hq0f⟩ := hpart
        have hq0k : q0 ≠ k := by omega
        have huniq : ∀ j, j < elements.length → j ≠ k / 4 → ∀ fj, fj < 4 →
            (elements.getD j default).faces.getD fj [] =
              (elements.getD (k / 4) default).faces.getD (k % 4) [] →
            j = q0 / 4 ∧ fj = q0 % 4 := by
          intro j hj hne fj hfj heq
          have hq' : 4 * j + fj = q0 := by
            apply partner_unique elements hvalid hman k (4 * j + fj) q0 hkL
              (by omega) hq0L
              (by rw [show (4 * j + fj) / 4 = j from by omega]; exact hne)
              hq0e ?_ hq0f
            rw [slotFace_mk elements j fj hfj, heq]
            rfl
          constructor <;> omega
        have hmatch0 :
            (elements.getD (q0 / 4) default).faces.getD (q0 % 4) []
            = (elements.getD (k / 4) default).faces.getD (k % 4) [] := hq0f
        have hscan := scan_unique_match elements (k / 4) (k % 4)
          ((elements.getD (k / 4) default).faces.getD (k % 4) [])
          (naiveFlat elements k) (q0 / 4) (q0 % 4)
          (by omega) hq0e (by omega) hmatch0 huniq
        have hbody : naive_body elements (k / 4) (k % 4) (naiveFlat elements k)
            = ((naiveFlat elements k).set (4 * (k / 4) + k % 4)
                (Int.ofNat (q0 / 4))).set (4 * (q0 / 4) + q0 % 4)
                (Int.ofNat (k / 4)) := by
          unfold naive_body
          rw [if_neg hguard]
          exact hscan
        rw [naiveFlat_succ_any, hbody]
        rw [show 4 * (k / 4) + k % 4 = k from by omega,
          show 4 * (q0 / 4) + q0 % 4 = q0 from by omega]
        by_cases hpk : p = k
        · subst hpk
          right
          refine ⟨q0, hq0L, hq0e, hq0f, ?_, ?_⟩
          · rw [getD_set_ne hq0k (Int.ofNat (p / 4)),
              getD_set_self (show p < (naiveFlat elements p).length from
                by omega) (Int.ofNat (q0 / 4))]
          · rw [getD_set_self (show q0 < ((naiveFlat elements p).set p
                (Int.ofNat (q0 / 4))).length from
                by rw [List.length_set]; omega) (Int.ofNat (p / 4))]
        · by_cases hpq : p = q0
          · subst hpq
            right
            refine ⟨k, hkL, (by omega : k / 4 ≠ p / 4), hq0f.symm, ?_, ?_⟩
            · rw [getD_set_self (show p < ((naiveFlat elements k).set k
                  (Int.ofNat (p / 4))).length from
                  by rw [List.length_set]; omega) (Int.ofNat (k / 4))]
            · rw [getD_set_ne hq0k (Int.ofNat (k / 4)),
                getD_set_self (show k < (naiveFlat elements k).length from
                  by omega) (Int.ofNat (p / 4))]
          · rcases ih p hp with h0 | ⟨q2, hqL2, hqne2, hqf2, hv1, hv2⟩
            · left
              rw [getD_set_ne (show q0 ≠ p from fun h => hpq h.symm) _,
                getD_set_ne (show k ≠ p from fun h => hpk h.symm) _]
              exact h0
            · right
              have hqk : q2 ≠ k := by
                intro h
                subst h
                rw [hkNone] at hv2
                have hn : (0 : Int) ≤ Int.ofNat (p / 4) :=
                  Int.ofNat_nonneg _
                rw [← hv2] at hn
                exact absurd hn (by decide)
              have hqq0 : q2 ≠ q0 := by
                intro h
                subst h
                rcases ih q2 hqL2 with h0' | ⟨r, hrL, hrne, hrf, hrv1, hrv2⟩
                · rw [h0'] at hv2
                  have hn : (0 : Int) ≤ Int.ofNat (p / 4) :=
                    Int.ofNat_nonneg _
                  rw [← hv2] at hn
                  exact absurd hn (by decide)
                · have hrk : r = k := partner_unique elements hvalid hman
                    q2 r k hqL2 hrL hkL hrne (Ne.symm hq0e) hrf hq0f.symm
                  rw [hrk, hkNone] at hrv2
                  have hn : (0 : Int) ≤ Int.ofNat (q2 / 4) :=
                    Int.ofNat_nonneg _
                  rw [← hrv2] at hn
                  exact absurd hn (by decide)
              refine ⟨q2, hqL2, hqne2, hqf2, ?_, ?_⟩
              · rw [getD_set_ne (show q0 ≠ p from fun h => hpq h.symm) _,
                  getD_set_ne (show k ≠ p from fun h => hpk h.symm) _]
                exact hv1
              · rw [getD_set_ne (Ne.symm hqq0) _, getD_set_ne (Ne.symm hqk) _]
                exact hv2
      · have hno : ∀ j, j < elements.length → j ≠ k / 4 → ∀ fj, fj < 4 →
            (elements.getD j default).faces.getD fj [] ≠
              (elements.getD (k / 4) default).faces.getD (k % 4) [] := by
          intro j hj hne fj hfj heq
          exact hpart ⟨4 * j + fj, by omega,
            by rw [show (4 * j + fj) / 4 = j from by omega]; exact hne,
            by rw [slotFace_mk elements j fj hfj, heq]; rfl⟩
        have hbody : naive_body elements (k / 4) (k % 4) (naiveFlat elements k)
            = naiveFlat elements k := by
          unfold naive_body
          rw [if_neg hguard]
          exact scan_no_match elements (k / 4) (k % 4) _ _ hno
        rw [naiveFlat_succ_any, hbody]
        exact ih p hp

/-- C2: on a valid, contiguously-tagged mesh that is additionally
MANIFOLD (no face triple shared by three distinct elements — the amended
precondition; the spec states the property unconditionally, which the
companion counterexample refutes), the neighbour table built by
`tetrahedron_neighbours` is reciprocal: every non-`NONE` slot
`neighbours[e][f] = j` has a face slot `fj` of element `j` with
`neighbours[j][fj] = e` and equal face triples. -/
theorem claim_C2 (elements : List Tetrahedron) (M : Nat)
    (hvalid : ∀ t ∈ elements, t.valid)
    (hbound : ∀ t ∈ elements, ∀ x ∈ t.nodes, 1 ≤ x ∧ x.toNat ≤ M)
    (hcover : ∀ n : Nat, 1 ≤ n → n ≤ M →
      ∃ t ∈ elements, ((n : Nat) : Int) ∈ t.nodes)
    (hM1 : 1 ≤ M)
    (hman : ∀ p q r : Nat, p < 4 * elements.length →
      q < 4 * elements.length → r < 4 * elements.length →
      p / 4 ≠ q / 4 → p / 4 ≠ r / 4 → q / 4 ≠ r / 4 →
      slotFace elements p = slotFace elements q →
      slotFace elements q = slotFace elements r → False) :
    ∃ out, tetrahedron_neighbours elements = .ok out ∧
      ∀ e f : Nat, e < elements.length → f < 4 →
        out.getD (4 * e + f) 0 ≠ NONE →
        ∃ j fj : Nat, j < elements.length ∧ fj < 4 ∧ j ≠ e ∧
          out.getD (4 * e + f) 0 = Int.ofNat j ∧
          out.getD (4 * j + fj) 0 = Int.ofNat e ∧
          (elements.getD j default).faces.getD fj [] =
            (elements.getD e default).faces.getD f [] := by
  refine ⟨naive_neighbours elements,
    tn_eq_naive elements M hvalid hbound hcover hM1, ?_⟩
  intro e f he hf hne
  have hres := naive_reciprocal elements hvalid hman
    (elements.length * 4) (4 * e + f) (by omega)
  rw [← naive_eq_flat] at hres
  rcases hres with h0 | ⟨q, hqL, hqne, hqf, hv1, hv2⟩
  · exact absurd h0 hne
  · have hq4 : 4 * (q / 4) + q % 4 = q := by omega
    have hef4 : (4 * e + f) / 4 = e := by omega
    have hef4m : (4 * e + f) % 4 = f := by omega
    refine ⟨q / 4, q % 4, by omega, by omega, ?_, ?_, ?_, ?_⟩
    · rw [hef4] at hqne
      exact hqne
    · exact hv1
    · rw [hq4]
      rw [hef4] at hv2
      exact hv2
    · unfold slotFace at hqf
      rw [hef4, hef4m] at hqf
      exact hqf

theorem claim_C2_witness :
    ∃ out, tetrahedron_neighbours
        ([⟨1, 2, 3, 4⟩, ⟨2, 3, 4, 5⟩] : List Tetrahedron) = .ok out ∧
      ∀ e f : Nat, e < ([⟨1, 2, 3, 4⟩, ⟨2, 3, 4, 5⟩] :
          List Tetrahedron).length → f < 4 →
        out.getD (4 * e + f) 0 ≠ NONE →
        ∃ j fj : Nat, j < ([⟨1, 2, 3, 4⟩, ⟨2, 3, 4, 5⟩] :
            List Tetrahedron).length ∧ fj < 4 ∧ j ≠ e ∧
          out.getD (4 * e + f) 0 = Int.ofNat j ∧
          out.getD (4 * j + fj) 0 = Int.ofNat e ∧
          (([⟨1, 2, 3, 4⟩, ⟨2, 3, 4, 5⟩] :
            List Tetrahedron).getD j default).faces.getD fj [] =
            (([⟨1, 2, 3, 4⟩, ⟨2, 3, 4, 5⟩] :
              List Tetrahedron).getD e default).faces.getD f [] :=
  claim_C2 [⟨1, 2, 3, 4⟩, ⟨2, 3, 4, 5⟩] 5
    (by intro t ht; fin_cases ht <;>
      exact ⟨by decide, by decide, by decide, by decide⟩)
    (by intro t ht; fin_cases ht <;>
      (intro x hx; fin_cases hx <;> exact ⟨by decide, by decide⟩))
    (by intro n h1 h2; interval_cases n <;> decide)
    (by omega)
    (by intro p q r hp hq hr h1 h2 h3 hf1 hf2
        simp only [List.length_cons, List.length_nil] at hp hq hr
        omega)

/-- C2 counterexample: with three valid tetrahedra all sharing the face
`{1,2,3}` (a non-manifold mesh with contiguous tags 1..6), the returned
table has `neighbours[1][3] = 0` but element 0's row is `[-1,-1,-1,2]`:
no face slot of element 0 points back at element 1, so reciprocity fails
without the manifold precondition. -/
theorem claim_C2_counterexample :
    tetrahedron_neighbours
        ([⟨1, 2, 3, 4⟩, ⟨1, 2, 3, 5⟩, ⟨1, 2, 3, 6⟩] : List Tetrahedron) =
      .ok [-1, -1, -1, 2, -1, -1, -1, 0, -1, -1, -1, 0] ∧
    ([-1, -1, -1, 2, -1, -1, -1, 0, -1, -1, -1, 0] : List Int).getD
      (4 * 1 + 3) 0 = 0 ∧
    ((0 : Int) ≠ NONE) ∧
    ∀ fj : Nat, fj < 4 →
      ([-1, -1, -1, 2, -1, -1, -1, 0, -1, -1, -1, 0] : List Int).getD
        (4 * 0 + fj) 0 ≠ 1 :=
  ⟨by rfl, by decide, by decide, by decide⟩

/-! ### C5 / C9 — the `Tetrahedron` constructor -/

theorem make_ok_iff (a b c d : Int) :
    (∃ t, Tetrahedron.make a b c d = .ok t) ↔
      (0 ≤ a ∧ 0 ≤ b ∧ 0 ≤ c ∧ 0 ≤ d ∧
        a ≠ b ∧ a ≠ c ∧ a ≠ d ∧ b ≠ c ∧ b ≠ d ∧ c ≠ d) := by
  constructor
  · rintro ⟨t, ht⟩
    unfold Tetrahedron.make at ht
    split_ifs at ht with h1 h2 h3 h4 h5 h6 h7 <;>
      try exact Except.noConfusion ht
    push_neg at h5 h6
    exact ⟨by omega, by omega, by omega, by omega,
      h5.1, h5.2.1, h5.2.2, h6.1, h6.2, h7⟩
  · rintro ⟨ha, hb, hc, hd, hab, hac, had, hbc, hbd, hcd⟩
    unfold Tetrahedron.make
    split_ifs with h1 h2 h3 h4 h5 h6 h7 <;>
      first
      | exact ⟨_, rfl⟩
      | (exfalso; first | omega | tauto)

theorem make_ok_fields {a b c d : Int} {t : Tetrahedron}
    (h : Tetrahedron.make a b c d = .ok t) :
    t.a ≤ t.b ∧ t.b ≤ t.c ∧ t.c ≤ t.d ∧
      [t.a, t.b, t.c, t.d].Perm [a, b, c, d] := by
  unfold Tetrahedron.make at h
  split_ifs at h
  have hperm := List.perm_insertionSort (· ≤ ·) [a, b, c, d]
  have hsort := List.sorted_insertionSort (· ≤ ·) [a, b, c, d]
  have hlen : (List.insertionSort (· ≤ ·) [a, b, c, d]).length = 4 :=
    List.length_insertionSort _ _
  generalize hs : List.insertionSort (· ≤ ·) [a, b, c, d] = s at h hperm hsort hlen
  match s, hlen with
  | [x0, x1, x2, x3], _ =>
    cases h
    simp only [List.sorted_cons, List.mem_cons] at hsort
    refine ⟨?_, ?_, ?_, ?_⟩
    · exact hsort.1 x1 (by simp)
    · exact hsort.2.1 x2 (by simp)
    · exact hsort.2.2.1 x3 (by simp)
    · simpa using hperm

theorem faces_eraseIdx (t : Tetrahedron) :
    ∀ k < 4, t.faces.getD k [] = ([t.a, t.b, t.c, t.d]).eraseIdx k := by
  intro k hk
  interval_cases k <;> rfl

/-- Success of `elements_around_points` forces every node tag to be at
least 1: the fill pass reads the cursor with `indices.at(node - 1)`, and
`vector::at` rejects negative indices. -/
theorem eap_ok_imp_pos {nodes : List Int} {r : EltsAroundPoints}
    (h : elements_around_points nodes = .ok r) :
    ∀ t ∈ nodes, 1 ≤ t := by
  unfold elements_around_points at h
  split at h
  · cases h
  next hlen4 =>
    match nodes, h with
    | n0 :: rest, h => ?_
    simp only [] at h
    split at h
    · cases h
    next hsz =>
      obtain ⟨ind1, hind1, h⟩ := bind_eq_ok h
      obtain ⟨ind2, hind2, h⟩ := bind_eq_ok h
      split at h
      · cases h
      next back hback =>
        split at h
        · cases h
        next hbackpos =>
          obtain ⟨s, hfill, h⟩ := bind_eq_ok h
          -- every fill step succeeded, so every `node - 1` was nonnegative
          have hstep : ∀ i ∈ List.range ((n0 :: rest).length / 4),
              ∀ j ∈ List.range 4,
              1 ≤ vecIx (n0 :: rest) (Int.ofNat (i * 4 + j)) := by
            intro i hi j hj
            obtain ⟨u, u', hu⟩ := foldlM_ok_forall hfill i hi
            obtain ⟨w, w', hw⟩ := foldlM_ok_forall hu j hj
            obtain ⟨eltL, ind⟩ := w
            obtain ⟨np, hnp, -⟩ := bind_eq_ok hw
            have := vecAt_ok_nonneg hnp
            omega
          intro t ht
          obtain ⟨p, hp, hget⟩ := List.mem_iff_getElem.mp ht
          have h4 : (n0 :: rest).length % 4 = 0 := by
            simpa using hlen4
          have hdiv : p / 4 ∈ List.range ((n0 :: rest).length / 4) := by
            simp only [List.mem_range]
            omega
          have hmod : p % 4 ∈ List.range 4 := by
            simp only [List.mem_range]
            omega
          have := hstep (p / 4) hdiv (p % 4) hmod
          have hpidx : p / 4 * 4 + p % 4 = p := by omega
          rw [hpidx] at this
          unfold vecIx at this
          split at this
          · rw [show (Int.ofNat p).toNat = p from rfl] at this
            rwa [List.getD_eq_getElem _ _ hp, hget] at this
          · omega

theorem eap_error_of_nonpos {nodes : List Int} (h : ∃ t ∈ nodes, t ≤ 0) :
    ∃ msg, elements_around_points nodes = .error msg := by
  obtain ⟨t, ht, htle⟩ := h
  cases hr : elements_around_points nodes with
  | error msg => exact ⟨msg, rfl⟩
  | ok r => exact absurd (eap_ok_imp_pos hr t ht) (by omega)

/-- C5: the `Tetrahedron` constructor fails with `InvalidElement`
(`std::invalid_argument`) iff some of the four node tags is negative or
two of them are equal; on success the stored tags are an ascending
permutation of the inputs and `faces()` returns exactly the four triples
obtained by omitting position 0, 1, 2, 3 of the sorted tags in turn, in
that order. -/
theorem claim_C5 (a b c d : Int) :
    ((∃ t, Tetrahedron.make a b c d = .ok t) ↔
      (0 ≤ a ∧ 0 ≤ b ∧ 0 ≤ c ∧ 0 ≤ d ∧
        a ≠ b ∧ a ≠ c ∧ a ≠ d ∧ b ≠ c ∧ b ≠ d ∧ c ≠ d)) ∧
    (∀ t, Tetrahedron.make a b c d = .ok t →
      (t.a ≤ t.b ∧ t.b ≤ t.c ∧ t.c ≤ t.d) ∧
      ([t.a, t.b, t.c, t.d]).Perm [a, b, c, d] ∧
      ∀ k < 4, t.faces.getD k [] = ([t.a, t.b, t.c, t.d]).eraseIdx k) := by
  refine ⟨make_ok_iff a b c d, fun t ht => ?_⟩
  obtain ⟨h1, h2, h3, h4⟩ := make_ok_fields ht
  exact ⟨⟨h1, h2, h3⟩, h4, faces_eraseIdx t⟩

theorem claim_C5_witness :
    ((1 : Int) ≤ 2 ∧ (2 : Int) ≤ 3 ∧ (3 : Int) ≤ 4) ∧
    ([(1 : Int), 2, 3, 4]).Perm [4, 2, 3, 1] ∧
    (∀ k < 4, (⟨1, 2, 3, 4⟩ : Tetrahedron).faces.getD k [] =
      ([(1 : Int), 2, 3, 4]).eraseIdx k) :=
  (claim_C5 4 2 3 1).2 ⟨1, 2, 3, 4⟩ rfl

/-- C7: the adjacency index construction fails whenever some node tag of 0
or less appears in its input list of element nodes (the failure surfaces
as the bounds-checked `indices.at(node - 1)` access — `vector::at` throws
`std::out_of_range` as soon as the fill pass reaches the offending tag;
for a negative tag already the counting pass `indices.at(idx)` throws). -/
theorem claim_C7 (nodes : List Int) (h : ∃ t ∈ nodes, t ≤ 0) :
    ∃ msg, elements_around_points nodes = .error msg :=
  eap_error_of_nonpos h

theorem claim_C7_witness :
    ∃ msg, elements_around_points [0, 1, 2, 3] = .error msg :=
  claim_C7 [0, 1, 2, 3] ⟨0, by simp, by omega⟩

/-- C9: the `Tetrahedron` constructor accepts node tag 0 — for all
distinct non-negative tags `b`, `c`, `d` (all nonzero, so that the four
tags are pairwise distinct), `Tetrahedron(0, b, c, d)` succeeds — even
though the adjacency construction downstream indexes its arrays by
`tag - 1` and therefore fails on the resulting element. -/
theorem claim_C9 (b c d : Int) (hb : 0 ≤ b) (hc : 0 ≤ c) (hd : 0 ≤ d)
    (hb0 : b ≠ 0) (hc0 : c ≠ 0) (hd0 : d ≠ 0)
    (hbc : b ≠ c) (hbd : b ≠ d) (hcd : c ≠ d) :
    ∃ t, Tetrahedron.make 0 b c d = .ok t ∧
      ∃ msg, elements_around_points (flatten_tetrahedron_vector [t]) =
        .error msg := by
  obtain ⟨t, ht⟩ := (make_ok_iff 0 b c d).mpr
    ⟨le_refl 0, hb, hc, hd, Ne.symm hb0, Ne.symm hc0, Ne.symm hd0,
      hbc, hbd, hcd⟩
  refine ⟨t, ht, eap_error_of_nonpos ⟨t.a, ?_, ?_⟩⟩
  · simp [flatten_tetrahedron_vector]
  · obtain ⟨h1, h2, h3, hperm⟩ := make_ok_fields ht
    have h0 : (0 : Int) ∈ [t.a, t.b, t.c, t.d] := hperm.mem_iff.mpr (by simp)
    simp only [List.mem_cons, List.not_mem_nil, or_false] at h0
    rcases h0 with h0 | h0 | h0 | h0 <;> omega

theorem claim_C9_witness :
    ∃ t, Tetrahedron.make 0 1 2 3 = .ok t ∧
      ∃ msg, elements_around_points (flatten_tetrahedron_vector [t]) =
        .error msg :=
  claim_C9 1 2 3 (by omega) (by omega) (by omega) (by omega) (by omega)
    (by omega) (by omega) (by omega) (by omega)

end mesh_neighbours

namespace msh

/-! ### C4 / C8 — the msh file parser -/

/-- C4: the spec says every element of a parsed mesh stores its four node
tags in ascending order; in fact neither `EGS_Mesh::Tetrahedron` nor the
`parse_body` assembly reorders anything (amended claim): element `i` of
the assembled mesh stores its medium tag and the four node tags of parsed
element `i` exactly as they appeared on the element line, in input
order. -/
theorem claim_C4 (element_groups : List Int) (elements : List Tetrahedron)
    (i : Nat) (hi : i < elements.length) :
    (assemble_elements element_groups elements).getD i default =
      ⟨element_groups.getD i (-1), (elements.getD i default).a,
        (elements.getD i default).b, (elements.getD i default).c,
        (elements.getD i default).d⟩ := by
  unfold assemble_elements
  rw [List.getD_eq_getElem _ _ (by simpa using hi)]
  rw [List.getElem_map, List.getElem_range]

theorem claim_C4_witness :
    (assemble_elements [5] [⟨1, 1, 9, 7, 8, 6⟩]).getD 0 default =
      ⟨5, 9, 7, 8, 6⟩ :=
  claim_C4 [5] [⟨1, 1, 9, 7, 8, 6⟩] 0 (by decide)

set_option maxRecDepth 100000 in
/-- C4 counterexample: a complete msh 4.1 file whose single element line
reads `1 2 1 3 4` (tag 1, nodes 2 1 3 4) parses successfully through
`parse_msh_file`, and the resulting mesh element stores the node tags in
input order: `a = 2 > b = 1`, so they are NOT in ascending order. -/
theorem claim_C4_counterexample :
    (parse_msh_file (Cin.mk0 c4file)).map
        (fun m => m.elements.map (fun e =>
          (e.medium_tag, e.a, e.b, e.c, e.d)))
      = .ok [(1, 2, 1, 3, 4)] ∧
    ¬ ((2 : Int) ≤ 1) :=
  ⟨by rfl, by decide⟩

/-- C8: the format-header token checks in their actual order: a version
other than "4.1" fails with the unsupported-version message; with version
"4.1", a binary flag of exactly 1 fails with the unsupported-encoding
message, but any OTHER non-zero binary flag falls through to the generic
"failed to parse msh version" (amending the spec, which assigns every
non-zero flag the encoding error); with version "4.1" and flag 0, a
size-of-size_t other than 8 fails with its own message, and otherwise the
tokens pass. -/
theorem claim_C8 (version : String) (binary_flag sizet : Int) :
    (version ≠ "4.1" →
      check_format_tokens version binary_flag sizet =
        .error ("unsupported msh version `" ++ version ++
          "`, the only supported version is 4.1")) ∧
    (version = "4.1" → binary_flag = 1 →
      check_format_tokens version binary_flag sizet =
        .error ("binary msh files are unsupported, " ++
          "please convert this file to ascii and try again")) ∧
    (version = "4.1" → binary_flag ≠ 0 → binary_flag ≠ 1 →
      check_format_tokens version binary_flag sizet =
        .error "failed to parse msh version") ∧
    (version = "4.1" → binary_flag = 0 → sizet ≠ 8 →
      check_format_tokens version binary_flag sizet =
        .error "msh file size_t must be 8") ∧
    (version = "4.1" → binary_flag = 0 → sizet = 8 →
      check_format_tokens version binary_flag sizet = .ok ()) := by
  refine ⟨fun h => ?_, fun h1 h2 => ?_, fun h1 h2 h3 => ?_,
    fun h1 h2 h3 => ?_, fun h1 h2 h3 => ?_⟩
  · unfold check_format_tokens
    rw [if_pos h]
  · subst h1
    subst h2
    rfl
  · subst h1
    unfold check_format_tokens
    rw [if_neg (by decide), if_pos h2, if_neg h3]
  · subst h1
    subst h2
    unfold check_format_tokens
    rw [if_neg (by decide), if_neg (by decide : ¬ ((0 : Int) ≠ 0)),
      if_pos h3]
  · subst h1
    subst h2
    subst h3
    rfl

theorem claim_C8_witness :
    check_format_tokens "4.1" 2 8 = .error "failed to parse msh version" :=
  (claim_C8 "4.1" 2 8).2.2.1 rfl (by decide) (by decide)

/-- C8 counterexample: a header whose binary flag is 2 (non-zero and not
1) makes `parse_msh_version` fail with the generic parse error, not the
unsupported-encoding error the spec promises for every non-zero flag. -/
theorem claim_C8_counterexample :
    parse_msh_version (Cin.mk0 "$MeshFormat\n4.1 2 8\n$EndMeshFormat\n") =
      .error "failed to parse msh version" ∧
    ("failed to parse msh version" ≠
      "binary msh files are unsupported, please convert this file to " ++
        "ascii and try again") :=
  ⟨by rfl, by decide⟩

end msh
